import Mathlib

/-!
Verification of the Zenith compiler's identifier-resolution and
scope-qualification engine (`ScriptRenamer` in
`src/native/compiler-native/src/jsx_lowerer.rs`, and
`compute_expression_intent` plus the environment-resolution validator in
`src/native/compiler-native/src/codegen.rs`).

The Rust code is shallowly embedded: the AST fragment the renamer
manipulates becomes a mutual inductive type, the mutable `ScriptRenamer`
visitor becomes explicit state passing of a context (`Ctx`, the fields that
drive classification and rewriting) and an output record (`Out`, the
accumulated errors and dependency sets), and the two `panic!` sites in the
codegen layer become `Except.error` values.
-/

namespace Zenith

/-- Classified identifier reference, mirroring `enum IdentifierRef` in
`jsx_lowerer.rs`. -/
inductive IdentifierRef where
  | StateRef (n : String)
  | PropRef (n : String)
  | LocalRef (n : String)
  | ExternalLocalRef (n : String)
  | GlobalRef (n : String)
  | UnresolvedRef (n : String)
deriving DecidableEq

mutual
/-- Expression fragment of the oxc AST that `ScriptRenamer::visit_expression`
manipulates: identifier references, numeric literals, static and computed
member accesses, assignment and update expressions, calls, sequence
expressions, and arrow/function expressions. -/
inductive Expr where
  | ident (name : String) : Expr
  | num (k : Nat) : Expr
  | staticMember (obj : Expr) (prop : String) : Expr
  | computedMember (obj : Expr) (key : Expr) : Expr
  | assign (op : String) (target : Target) (value : Expr) : Expr
  | update (op : String) (pre : Bool) (target : Target) : Expr
  | call (callee : Expr) (args : List Expr) : Expr
  | seqExpr (items : List Expr) : Expr
  | arrow (params : List Pat) (body : List Stmt) : Expr
  | funcExpr (id : Option String) (params : List Pat) (body : List Stmt) : Expr

/-- `SimpleAssignmentTarget`: an identifier target or a (static/computed)
member-expression target. -/
inductive Target where
  | tId (name : String) : Target
  | tStatic (obj : Expr) (prop : String) : Target
  | tComputed (obj : Expr) (key : Expr) : Target

/-- `BindingPattern`: identifier, object pattern (property key `none` stands
for a computed key, which `expand_destructuring_to_assignments` skips), or
array pattern. -/
inductive Pat where
  | pId (name : String) : Pat
  | pObj (props : List (Option String × Pat)) (rest : Option Pat) : Pat
  | pArr (elems : List (Option Pat)) (rest : Option Pat) : Pat

/-- Statement fragment handled by `ScriptRenamer::visit_statement`:
expression statements, variable declarations (kind string plus declarators),
function declarations, blocks, the empty statement, and TypeScript type-only
declarations (stripped before walking). -/
inductive Stmt where
  | exprStmt (e : Expr) : Stmt
  | varDecl (kind : String) (decls : List (Pat × Option Expr)) : Stmt
  | funcDecl (name : String) (params : List Pat) (body : List Stmt) : Stmt
  | block (body : List Stmt) : Stmt
  | empty : Stmt
  | tsDecl : Stmt
end

/-- The `GLOBALS` whitelist from `jsx_lowerer.rs`. -/
def GLOBALS : List String :=
  [ "window", "console", "Math", "JSON", "Map", "Set", "URL", "Array", "Object",
    "Boolean", "Number", "String", "Error", "ReferenceError", "TypeError", "SyntaxError",
    "Date", "RegExp", "Promise", "setTimeout", "setInterval", "clearTimeout", "clearInterval",
    "fetch", "document", "location", "navigator", "localStorage", "sessionStorage",
    "Intl", "Uint8Array", "Uint16Array", "Uint32Array", "Int8Array", "Int16Array", "Int32Array",
    "Float32Array", "Float64Array", "BigUint64Array", "BigInt64Array", "DataView",
    "ArrayBuffer", "SharedArrayBuffer", "WebAssembly", "Proxy", "Reflect", "Symbol",
    "NaN", "Infinity", "undefined", "encodeURI", "encodeURIComponent", "decodeURI",
    "decodeURIComponent", "parseInt", "parseFloat", "isNaN", "isFinite", "globalThis",
    "zenRoute", "zenLink", "scope", "state", "props", "locals", "__zenith",
    "zenOnMount", "zenOnUnmount", "zenEffect", "zenComputed", "zenWatch", "zenWatchEffect",
    "requestAnimationFrame", "cancelAnimationFrame", "Element", "Node", "Event",
    "MouseEvent", "KeyboardEvent", "URLSearchParams", "__ZENITH_STATE__", "__ZENITH_SCOPES__",
    "ref", "zenFixSVGNamespace" ]

/-- The classification-relevant mutable state of `ScriptRenamer`: the four
binding sets, module bindings, the scope stack (head of the list is the
innermost frame, mirroring the last element of the Rust `Vec`), and the three
behaviour flags. -/
structure Ctx where
  stateBindings : List String
  propBindings : List String
  localBindings : List String
  externalLocals : List String
  moduleBindings : List String
  scopeStack : List (List String)
  disallowReactiveAccess : Bool
  isEventHandler : Bool
  allowPropFallback : Bool
deriving DecidableEq

/-- The accumulated outputs of `ScriptRenamer`: the error list and the
dependency/mutation sets (`HashSet`s in Rust; encoded as duplicate-free
lists via `insertStr`). -/
structure Out where
  errors : List String
  stateDeps : List String
  propDeps : List String
  mutatedStateDeps : List String
deriving DecidableEq

/-- `HashSet::insert`: add a string to a set-as-list if not present. -/
def insertStr (l : List String) (x : String) : List String :=
  if l.contains x then l else l ++ [x]

/-- `ScriptRenamer::with_categories`: fresh renamer state with the given
binding sets, a single empty scope frame, and all flags cleared. -/
def withCategories (st pr lo ex : List String) : Ctx :=
  { stateBindings := st, propBindings := pr, localBindings := lo,
    externalLocals := ex, moduleBindings := [], scopeStack := [[]],
    disallowReactiveAccess := false, isEventHandler := false,
    allowPropFallback := false }

def emptyOut : Out := { errors := [], stateDeps := [], propDeps := [], mutatedStateDeps := [] }

/-- `ScriptRenamer::add_local`: insert into the innermost scope frame
(no-op on an empty stack, as `last_mut` returns `None`). -/
def addLocal (c : Ctx) (n : String) : Ctx :=
  match c.scopeStack with
  | [] => c
  | f :: rest => { c with scopeStack := insertStr f n :: rest }

def pushScope (c : Ctx) : Ctx := { c with scopeStack := [] :: c.scopeStack }

def popScope (c : Ctx) : Ctx := { c with scopeStack := c.scopeStack.tail }

/-- `ScriptRenamer::is_local`: the name appears in some scope frame. -/
def isLocalName (c : Ctx) (n : String) : Bool :=
  c.scopeStack.any (fun f => f.contains n)

/-- `ScriptRenamer::is_global`. -/
def isGlobalName (n : String) : Bool := GLOBALS.contains n

/-- `ScriptRenamer::classify_identifier`, byte for byte the same rule order:
protected roots, scope-stack locals, component locals, external locals,
state, props, module bindings, globals whitelist, guarded prop fallback,
unresolved. -/
def classifyIdentifier (c : Ctx) (n : String) : IdentifierRef :=
  if n == "scope" || n == "state" || n == "props" || n == "locals" then
    .GlobalRef n
  else if isLocalName c n then
    .LocalRef n
  else if c.localBindings.contains n then
    .ExternalLocalRef n
  else if c.externalLocals.contains n then
    .ExternalLocalRef n
  else if c.stateBindings.contains n then
    .StateRef n
  else if c.propBindings.contains n then
    .PropRef n
  else if c.moduleBindings.contains n then
    .GlobalRef n
  else if isGlobalName n then
    .GlobalRef n
  else if c.allowPropFallback && c.scopeStack.length == 1 then
    .PropRef n
  else
    .UnresolvedRef n

/-- `ScriptRenamer::create_member_access` as an expression:
`scope.<category>.<prop>`. -/
def memberAccessE (cat n : String) : Expr :=
  .staticMember (.staticMember (.ident ("scope")) cat) n

/-- `ScriptRenamer::create_member_access` used as an assignment target. -/
def memberAccessT (cat n : String) : Target :=
  .tStatic (.staticMember (.ident ("scope")) cat) n

/-- Category selection of `ScriptRenamer::create_state_member`: props before
locals before state. -/
def stateMemberCat (c : Ctx) (n : String) : String :=
  if c.propBindings.contains n then "props"
  else if c.localBindings.contains n then "locals"
  else "state"

mutual
/-- `ScriptRenamer::collect_binding_names_into`: all binding identifiers of a
pattern, in traversal order. -/
def collectNames : Pat → List String
  | .pId n => [n]
  | .pObj props rest =>
      collectNamesObj props ++
        (match rest with | some r => collectNames r | none => [])
  | .pArr elems rest =>
      collectNamesArr elems ++
        (match rest with | some r => collectNames r | none => [])

def collectNamesObj : List (Option String × Pat) → List String
  | [] => []
  | (_, v) :: rest => collectNames v ++ collectNamesObj rest

def collectNamesArr : List (Option Pat) → List String
  | [] => []
  | some p :: rest => collectNames p ++ collectNamesArr rest
  | none :: rest => collectNamesArr rest
end

/-- `ScriptRenamer::collect_binding_names`: add every binding name of the
pattern to the innermost scope frame. -/
def collectBindingNames (c : Ctx) (p : Pat) : Ctx :=
  (collectNames p).foldl addLocal c

/-- `ScriptRenamer::collect_and_register_binding_names`: register every
binding name of the pattern into `local_bindings`. -/
def collectAndRegister (c : Ctx) (p : Pat) : Ctx :=
  { c with localBindings := (collectNames p).foldl insertStr c.localBindings }

mutual
/-- `ScriptRenamer::expand_destructuring_to_assignments`: turn a
destructuring pattern plus a source expression into explicit assignments to
`scope.locals.*`.  Object rest patterns and computed keys are skipped, array
elements index with `source[i]`, exactly as in the Rust code. -/
def expandDestructuring : Pat → Expr → List Expr
  | .pId n, source =>
      [Expr.assign ("=") (memberAccessT ("locals") n) source]
  | .pObj props _, source => expandDestructuringObj props source
  | .pArr elems _, source => expandDestructuringArr elems source 0

def expandDestructuringObj : List (Option String × Pat) → Expr → List Expr
  | [], _ => []
  | (some k, v) :: rest, source =>
      expandDestructuring v (Expr.staticMember source k) ++
        expandDestructuringObj rest source
  | (none, _) :: rest, source => expandDestructuringObj rest source

def expandDestructuringArr : List (Option Pat) → Expr → Nat → List Expr
  | [], _, _ => []
  | some p :: rest, source, i =>
      expandDestructuring p (Expr.computedMember source (Expr.num i)) ++
        expandDestructuringArr rest source (i + 1)
  | none :: rest, source, i => expandDestructuringArr rest source (i + 1)
end

/-- `ScriptRenamer::is_ts_node`. -/
def isTsNode : Stmt → Bool
  | .tsDecl => true
  | _ => false

def isEmptyStmt : Stmt → Bool
  | .empty => true
  | _ => false

def pushError (o : Out) (msg : String) : Out := { o with errors := o.errors ++ [msg] }

def addStateDep (o : Out) (n : String) : Out := { o with stateDeps := insertStr o.stateDeps n }

def addPropDep (o : Out) (n : String) : Out := { o with propDeps := insertStr o.propDeps n }

def addMutatedDep (o : Out) (n : String) : Out :=
  { o with mutatedStateDeps := insertStr o.mutatedStateDeps n }

/-- Error text of the `Z-ERR-RUN-REACTIVE` state-read diagnostic. -/
def stateReadRunErr (n : String) : String :=
  "Z-ERR-RUN-REACTIVE: Component script read reactive state `" ++ n ++
    "` in __run(). Use effects or expressions instead."

/-- Error text of the `Z-ERR-RUN-REACTIVE` prop-read diagnostic. -/
def propReadRunErr (n : String) : String :=
  "Z-ERR-RUN-REACTIVE: Component script read reactive prop `" ++ n ++
    "` in __run(). Use initial values or props in expressions."

/-- Error text of the `Z-ERR-SCOPE-002` unresolved-identifier diagnostic. -/
def unresolvedErr (n : String) : String :=
  "Z-ERR-SCOPE-002: Identifier `" ++ n ++
    "` is not declared in state, props, or locals"

/-- Error text of the `Z-ERR-RUN-REACTIVE` state-write diagnostic. -/
def stateWriteRunErr (n : String) : String :=
  "Z-ERR-RUN-REACTIVE: Component script modified reactive state `" ++ n ++
    "` in __run(). Use event handlers for state mutation."

/-- Error text of the `Z-ERR-REACTIVITY-BOUNDARY` state-write diagnostic. -/
def stateWriteBoundaryErr (n : String) : String :=
  "Z-ERR-REACTIVITY-BOUNDARY: State `" ++ n ++
    "` modified in an expression. State mutation is only allowed in event handlers."

/-- Error text of the `Z-ERR-RUN-REACTIVE` prop-write diagnostic. -/
def propWriteRunErr (n : String) : String :=
  "Z-ERR-RUN-REACTIVE: Component script attempt to modify reactive prop `" ++ n ++
    "` in __run(). Props are read-only."

/-- Error text of the `Z-ERR-REACTIVITY-BOUNDARY` prop-write diagnostic. -/
def propWriteBoundaryErr (n : String) : String :=
  "Z-ERR-REACTIVITY-BOUNDARY: Prop `" ++ n ++
    "` modified in an expression. Props are read-only."

mutual
/-- `ScriptRenamer::visit_expression`.  Identifier references are rewritten
per their classification (with reactive-read diagnostics and dependency
tracking), the protected container names `state`/`props`/`locals` are
re-qualified to `scope.*`, arrow/function expressions push a scope frame
seeded with their parameter names and temporarily clear
`disallow_reactive_access`, and all other nodes walk their sub-expressions. -/
def visitExpr (c : Ctx) (o : Out) : Expr → Expr × Ctx × Out
  | .ident n =>
      match classifyIdentifier c n with
      | .StateRef m =>
          let o1 := if c.disallowReactiveAccess then pushError o (stateReadRunErr m) else o
          (memberAccessE ("state") m, c, addStateDep o1 m)
      | .PropRef m =>
          let o1 := if c.disallowReactiveAccess then pushError o (propReadRunErr m) else o
          (memberAccessE ("props") m, c, addPropDep o1 m)
      | .ExternalLocalRef m => (memberAccessE ("locals") m, c, o)
      | .LocalRef _ => (.ident n, c, o)
      | .GlobalRef m =>
          if m == "state" || m == "props" || m == "locals" then
            (.staticMember (.ident ("scope")) m, c, o)
          else
            (.ident n, c, o)
      | .UnresolvedRef m => (.ident n, c, pushError o (unresolvedErr m))
  | .num k => (.num k, c, o)
  | .staticMember obj p =>
      let r := visitExpr c o obj
      (.staticMember r.1 p, r.2.1, r.2.2)
  | .computedMember obj k =>
      let r := visitExpr c o obj
      let r2 := visitExpr r.2.1 r.2.2 k
      (.computedMember r.1 r2.1, r2.2.1, r2.2.2)
  | .assign op t v =>
      let r := visitTarget c o t
      let r2 := visitExpr r.2.1 r.2.2 v
      (.assign op r.1 r2.1, r2.2.1, r2.2.2)
  | .update op pre t =>
      let r := visitTarget c o t
      (.update op pre r.1, r.2.1, r.2.2)
  | .call f args =>
      let r := visitExpr c o f
      let r2 := visitExprList r.2.1 r.2.2 args
      (.call r.1 r2.1, r2.2.1, r2.2.2)
  | .seqExpr items =>
      let r := visitExprList c o items
      (.seqExpr r.1, r.2.1, r.2.2)
  | .arrow params body =>
      let prev := c.disallowReactiveAccess
      let c1 := params.foldl collectBindingNames
        (pushScope { c with disallowReactiveAccess := false })
      let r := visitStmts c1 o body
      (.arrow params r.1, { popScope r.2.1 with disallowReactiveAccess := prev }, r.2.2)
  | .funcExpr id params body =>
      let prev := c.disallowReactiveAccess
      let c1 := params.foldl collectBindingNames
        (pushScope { c with disallowReactiveAccess := false })
      let r := visitStmts c1 o body
      (.funcExpr id params r.1, { popScope r.2.1 with disallowReactiveAccess := prev }, r.2.2)

/-- `ScriptRenamer::visit_simple_assignment_target`.  Identifier targets are
classified: state targets record both a dependency and a mutation and raise
the write diagnostics, prop targets record a prop dependency and raise the
prop-write diagnostics, external-local targets are re-qualified silently, and
everything else is left as is; member-expression targets walk their object
(and computed key) sub-expressions. -/
def visitTarget (c : Ctx) (o : Out) : Target → Target × Ctx × Out
  | .tId n =>
      match classifyIdentifier c n with
      | .StateRef m =>
          let o1 :=
            if c.disallowReactiveAccess then pushError o (stateWriteRunErr m)
            else if !c.isEventHandler then pushError o (stateWriteBoundaryErr m)
            else o
          (memberAccessT ("state") m, c, addMutatedDep (addStateDep o1 m) m)
      | .PropRef m =>
          let o1 :=
            if c.disallowReactiveAccess then pushError o (propWriteRunErr m)
            else if !c.isEventHandler then pushError o (propWriteBoundaryErr m)
            else o
          (memberAccessT ("props") m, c, addPropDep o1 m)
      | .ExternalLocalRef m => (memberAccessT ("locals") m, c, o)
      | .LocalRef _ => (.tId n, c, o)
      | .GlobalRef _ => (.tId n, c, o)
      | .UnresolvedRef _ => (.tId n, c, o)
  | .tStatic obj p =>
      let r := visitExpr c o obj
      (.tStatic r.1 p, r.2.1, r.2.2)
  | .tComputed obj k =>
      let r := visitExpr c o obj
      let r2 := visitExpr r.2.1 r.2.2 k
      (.tComputed r.1 r2.1, r2.2.1, r2.2.2)

def visitExprList (c : Ctx) (o : Out) : List Expr → List Expr × Ctx × Out
  | [] => ([], c, o)
  | e :: rest =>
      let r := visitExpr c o e
      let r2 := visitExprList r.2.1 r.2.2 rest
      (r.1 :: r2.1, r2.2.1, r2.2.2)

/-- The declarator loop of `ScriptRenamer::visit_statement`'s
`Statement::VariableDeclaration` arm (Phase R5 scope-binding hoisting),
threading the renamer state, the accumulated assignment expressions and the
`all_hoisted` flag.  Returns the visited declarators, the assignments, the
final flag, and the renamer state. -/
def visitDecls (isTop : Bool) (c : Ctx) (o : Out) (asns : List Expr) (allH : Bool) :
    List (Pat × Option Expr) →
      List (Pat × Option Expr) × List Expr × Bool × Ctx × Out
  | [] => ([], asns, allH, c, o)
  | (Pat.pId name, init) :: rest =>
      let isState := c.stateBindings.contains name
      let isProp := c.propBindings.contains name
      let isExplicitLocal := c.localBindings.contains name
      if isTop || isState || isProp || isExplicitLocal then
        match init with
        | some e =>
            let r := visitExpr c o e
            let c2 :=
              if isTop && !isState && !isProp && !isExplicitLocal then
                { r.2.1 with localBindings := insertStr r.2.1.localBindings name }
              else r.2.1
            let asn := Expr.assign ("=") (memberAccessT (stateMemberCat c2 name) name) r.1
            let rr := visitDecls isTop c2 r.2.2 (asns ++ [asn]) allH rest
            ((Pat.pId name, some r.1) :: rr.1, rr.2)
        | none =>
            let c2 :=
              if isTop && !isState && !isProp && !isExplicitLocal then
                { c with localBindings := insertStr c.localBindings name }
              else c
            let asn := Expr.assign ("=") (memberAccessT (stateMemberCat c2 name) name)
              (Expr.ident ("undefined"))
            let rr := visitDecls isTop c2 o (asns ++ [asn]) allH rest
            ((Pat.pId name, none) :: rr.1, rr.2)
      else
        let c1 := addLocal c name
        match init with
        | some e =>
            let r := visitExpr c1 o e
            let rr := visitDecls isTop r.2.1 r.2.2 asns false rest
            ((Pat.pId name, some r.1) :: rr.1, rr.2)
        | none =>
            let rr := visitDecls isTop c1 o asns false rest
            ((Pat.pId name, none) :: rr.1, rr.2)
  | (p, init) :: rest =>
      if isTop then
        match init with
        | some e =>
            let r := visitExpr c o e
            let c2 := collectAndRegister r.2.1 p
            let rr := visitDecls isTop c2 r.2.2 (asns ++ expandDestructuring p r.1) true rest
            ((p, some r.1) :: rr.1, rr.2)
        | none =>
            let rr := visitDecls isTop (collectAndRegister c p) o asns allH rest
            ((p, none) :: rr.1, rr.2)
      else
        let c1 := collectBindingNames c p
        match init with
        | some e =>
            let r := visitExpr c1 o e
            let rr := visitDecls isTop r.2.1 r.2.2 asns false rest
            ((p, some r.1) :: rr.1, rr.2)
        | none =>
            let rr := visitDecls isTop c1 o asns false rest
            ((p, none) :: rr.1, rr.2)

/-- `ScriptRenamer::visit_statement`.  Blocks strip type-only nodes and
push/pop a scope frame; variable declarations run the hoisting loop and are
replaced by their assignment expression(s) when everything hoisted;
top-level function declarations whose name is a registered local become
`scope.locals.<name> = function …` assignments; other function declarations
keep their shape but get a parameter-seeded scope frame for the body. -/
def visitStmt (c : Ctx) (o : Out) : Stmt → Stmt × Ctx × Out
  | .exprStmt e =>
      let r := visitExpr c o e
      (.exprStmt r.1, r.2.1, r.2.2)
  | .varDecl kind decls =>
      let isTop := c.scopeStack.length == 1
      let r := visitDecls isTop c o [] true decls
      let asns := r.2.1
      if r.2.2.1 && !asns.isEmpty then
        match asns with
        | [a] => (.exprStmt a, r.2.2.2.1, r.2.2.2.2)
        | _ => (.exprStmt (.seqExpr asns), r.2.2.2.1, r.2.2.2.2)
      else
        (.varDecl kind r.1, r.2.2.2.1, r.2.2.2.2)
  | .funcDecl name params body =>
      let qualify := c.scopeStack.length == 1 && c.localBindings.contains name
      let prev := c.disallowReactiveAccess
      let c1 := params.foldl collectBindingNames
        (pushScope { c with disallowReactiveAccess := false })
      let r := visitStmts c1 o body
      let c2 := { popScope r.2.1 with disallowReactiveAccess := prev }
      if qualify then
        (.exprStmt (.assign ("=") (memberAccessT ("locals") name)
          (.funcExpr (some name) params r.1)), c2, r.2.2)
      else
        (.funcDecl name params r.1, c2, r.2.2)
  | .block body =>
      let c1 := pushScope c
      let r := visitStmtsSkipTs c1 o body
      (.block r.1, popScope r.2.1, r.2.2)
  | .empty => (.empty, c, o)
  | .tsDecl => (.tsDecl, c, o)

/-- Block bodies in `visit_statement` first `retain` the non-TS statements
and then visit each one; the two passes are fused here (dropping a TS node
is a no-op on the renamer state, so retain-then-walk and skip-while-walking
agree). -/
def visitStmtsSkipTs (c : Ctx) (o : Out) : List Stmt → List Stmt × Ctx × Out
  | [] => ([], c, o)
  | s :: rest =>
      if isTsNode s then visitStmtsSkipTs c o rest
      else
        let r := visitStmt c o s
        let r2 := visitStmtsSkipTs r.2.1 r.2.2 rest
        (r.1 :: r2.1, r2.2.1, r2.2.2)

def visitStmts (c : Ctx) (o : Out) : List Stmt → List Stmt × Ctx × Out
  | [] => ([], c, o)
  | s :: rest =>
      let r := visitStmt c o s
      let r2 := visitStmts r.2.1 r.2.2 rest
      (r.1 :: r2.1, r2.2.1, r2.2.2)
end

/-- `ScriptRenamer::visit_program`: strip type-only declarations, walk every
statement, then drop the empty statements left behind by import extraction. -/
def visitProgram (c : Ctx) (o : Out) (prog : List Stmt) : List Stmt × Ctx × Out :=
  let r := visitStmts c o (prog.filter (fun s => !isTsNode s))
  (r.1.filter (fun s => !isEmptyStmt s), r.2.1, r.2.2)

/-- `c'` agrees with `c` on every field except possibly the innermost scope
frame: the shape every statement visit below the top level preserves. -/
def ctxBelow (c c' : Ctx) : Prop :=
  ∃ f, c' = { c with scopeStack := f :: c.scopeStack.tail }

/-- No binding set claims the reserved identifier `undefined` (the parser
never produces such a binding; the hoisting of an initializer-less
declarator materialises a fresh `undefined` reference, so idempotence of the
rewrite is relative to this invariant). -/
def noUndefinedBinding (c : Ctx) : Prop :=
  c.localBindings.contains ("undefined") = false ∧
  c.externalLocals.contains ("undefined") = false ∧
  c.stateBindings.contains ("undefined") = false ∧
  c.propBindings.contains ("undefined") = false

/-- An expression the rewrite leaves untouched (and whose visit restores the
context), for any accumulated output. -/
def exprStable (c : Ctx) (e : Expr) : Prop :=
  ∀ o, (visitExpr c o e).1 = e ∧ (visitExpr c o e).2.1 = c

/-- Elementwise stability of a list of expressions. -/
def exprListStable (c : Ctx) (t : List Expr) : Prop := ∀ e ∈ t, exprStable c e

/-- Comma-join, as the oxc codegen prints argument and declarator lists. -/
def joinComma (l : List String) : String := String.intercalate (", ") l

mutual
/-- Serialization of the embedded AST back to source text, mirroring what
`oxc_codegen::Codegen` produces on this fragment. -/
def emitExpr : Expr → String
  | .ident n => n
  | .num k => toString k
  | .staticMember o p => emitExpr o ++ "." ++ p
  | .computedMember o k => emitExpr o ++ "[" ++ emitExpr k ++ "]"
  | .assign op t v => emitTarget t ++ " " ++ op ++ " " ++ emitExpr v
  | .update op pre t => if pre then op ++ emitTarget t else emitTarget t ++ op
  | .call f args => emitExpr f ++ "(" ++ joinComma (emitExprList args) ++ ")"
  | .seqExpr items => joinComma (emitExprList items)
  | .arrow ps body =>
      "(" ++ joinComma (emitPatList ps) ++ ") => \x7b " ++ emitStmts body ++ " \x7d"
  | .funcExpr id ps body =>
      "function " ++ (match id with | some n => n | none => "") ++ "(" ++
        joinComma (emitPatList ps) ++ ") \x7b " ++ emitStmts body ++ " \x7d"

def emitTarget : Target → String
  | .tId n => n
  | .tStatic o p => emitExpr o ++ "." ++ p
  | .tComputed o k => emitExpr o ++ "[" ++ emitExpr k ++ "]"

def emitExprList : List Expr → List String
  | [] => []
  | e :: rest => emitExpr e :: emitExprList rest

def emitPat : Pat → String
  | .pId n => n
  | .pObj props rest =>
      "\x7b " ++ joinComma (emitObjProps props ++
        (match rest with | some r => ["..." ++ emitPat r] | none => [])) ++ " \x7d"
  | .pArr elems rest =>
      "[" ++ joinComma (emitArrElems elems ++
        (match rest with | some r => ["..." ++ emitPat r] | none => [])) ++ "]"

def emitObjProps : List (Option String × Pat) → List String
  | [] => []
  | (some k, v) :: rest => (k ++ ": " ++ emitPat v) :: emitObjProps rest
  | (none, v) :: rest => emitPat v :: emitObjProps rest

def emitArrElems : List (Option Pat) → List String
  | [] => []
  | some p :: rest => emitPat p :: emitArrElems rest
  | none :: rest => "" :: emitArrElems rest

def emitPatList : List Pat → List String
  | [] => []
  | p :: rest => emitPat p :: emitPatList rest

def emitDecl : (Pat × Option Expr) → String
  | (p, some e) => emitPat p ++ " = " ++ emitExpr e
  | (p, none) => emitPat p

def emitDeclList : List (Pat × Option Expr) → List String
  | [] => []
  | d :: rest => emitDecl d :: emitDeclList rest

def emitStmt : Stmt → String
  | .exprStmt e => emitExpr e ++ ";"
  | .varDecl kind ds => kind ++ " " ++ joinComma (emitDeclList ds) ++ ";"
  | .funcDecl name ps body =>
      "function " ++ name ++ "(" ++ joinComma (emitPatList ps) ++ ") \x7b " ++
        emitStmts body ++ " \x7d"
  | .block body => "\x7b " ++ emitStmts body ++ " \x7d"
  | .empty => ";"
  | .tsDecl => ""

def emitStmts : List Stmt → String
  | [] => ""
  | [s] => emitStmt s
  | s :: rest => emitStmt s ++ "\n" ++ emitStmts rest
end

/-- Character-list prefix test. -/
def charsPrefix : List Char → List Char → Bool
  | [], _ => true
  | _ :: _, [] => false
  | a :: as, b :: bs => a == b && charsPrefix as bs

/-- Character-list substring test. -/
def charsContains : List Char → List Char → Bool
  | [], n => n.isEmpty
  | a :: t, n => charsPrefix n (a :: t) || charsContains t n

/-- Substring test, the semantics of Rust's `str::contains` for string
patterns. -/
def strContains (h n : String) : Bool :=
  charsContains h.data n.data

/-- `str::trim`: strip leading and trailing whitespace. -/
def trimWs (s : String) : String :=
  String.mk (((s.data.dropWhile Char.isWhitespace).reverse.dropWhile
    Char.isWhitespace).reverse)

/-- `str::trim_end_matches(';')`: drop every trailing semicolon. -/
def trimEndSemis (s : String) : String :=
  String.mk ((s.data.reverse.dropWhile (fun ch => ch == ';')).reverse)

/-- `LoopContextInput` of `validate.rs` (only the variable list matters to
the renamer). -/
structure LoopContextInput where
  vars : List String
deriving DecidableEq

/-- `ExpressionInput` of `validate.rs`. -/
structure ExpressionInput where
  id : String
  code : String
  loopContext : Option LoopContextInput
deriving DecidableEq

/-- The five components returned by `compute_expression_intent`: the
transformed code, the state dependencies, the uses-loop flag, the error
list, and the mutated state names. -/
structure IntentResult where
  code : String
  deps : List String
  usesLoop : Bool
  errors : List String
  mutated : List String
deriving DecidableEq

/-- The message of the leftover debug `panic!` in
`compute_expression_intent` (codegen.rs, the `docsOrder`/`render` check). -/
def debugPanicMsg : String := "[DEBUG PANIC] Found target code!"

/-- The message of the `ZEN_ENV_TDZ_VIOLATION` `panic!` in the
environment-resolution validator (codegen.rs). -/
def tdzPanicMsg : String :=
  "Zenith Compile Error [ZEN_ENV_TDZ_VIOLATION]: Environment-derived values must be resolved before state and expressions. Move zenRoute() to the top-level environment prelude."

/-- `compute_expression_intent` (codegen.rs).  The oxc parser is external to
the embedding, so the function takes the parse result (`none` = parse
errors): on parse failure the original code is returned with empty lists.
Otherwise the renamer is built with `allow_prop_fallback = false`, the
loop-context variables and the caller's loop variables become root-frame
locals, the program is visited once, then `is_event_handler` is set (only if
requested) and the program is visited a second time; the output is
serialized, trimmed of trailing semicolons, and the leftover debug check
panics (modelled as `Except.error`) whenever the transformed text contains
`docsOrder` or `render`.  JSX lowering is omitted: the embedded fragment has
no JSX nodes and `JsxLowerer` is the identity on it. -/
def computeExpressionIntent (parsed : Option (List Stmt)) (expr : ExpressionInput)
    (stateB propB localB extL loopVars : List String) (isEventHandler : Bool) :
    Except String IntentResult :=
  let usesLoop := expr.loopContext.isSome || loopVars.any (fun v => strContains expr.code v)
  match parsed with
  | none => .ok ⟨expr.code, [], usesLoop, [], []⟩
  | some prog =>
      let lcVars := match expr.loopContext with | some lc => lc.vars | none => []
      let c0 := (lcVars ++ loopVars).foldl addLocal (withCategories stateB propB localB extL)
      let p1 := visitProgram c0 emptyOut prog
      let c1 := if isEventHandler then { p1.2.1 with isEventHandler := true } else p1.2.1
      let p2 := visitProgram c1 p1.2.2 p1.1
      let transformed := trimEndSemis (trimWs (emitStmts p2.1))
      if strContains transformed ("docsOrder") || strContains transformed ("render") then
        .error debugPanicMsg
      else
        .ok ⟨transformed, p2.2.2.stateDeps, usesLoop, p2.2.2.errors, p2.2.2.mutatedStateDeps⟩

mutual
/-- `TdzValidator`: does the node contain a call whose callee is the bare
identifier `zenRoute`? -/
def exprHasZenRoute : Expr → Bool
  | .ident _ => false
  | .num _ => false
  | .staticMember o _ => exprHasZenRoute o
  | .computedMember o k => exprHasZenRoute o || exprHasZenRoute k
  | .assign _ t v => targetHasZenRoute t || exprHasZenRoute v
  | .update _ _ t => targetHasZenRoute t
  | .call f args =>
      (match f with | .ident n => n == "zenRoute" | _ => false) ||
        exprHasZenRoute f || exprListHasZenRoute args
  | .seqExpr items => exprListHasZenRoute items
  | .arrow _ body => stmtsHaveZenRoute body
  | .funcExpr _ _ body => stmtsHaveZenRoute body

def targetHasZenRoute : Target → Bool
  | .tId _ => false
  | .tStatic o _ => exprHasZenRoute o
  | .tComputed o k => exprHasZenRoute o || exprHasZenRoute k

def exprListHasZenRoute : List Expr → Bool
  | [] => false
  | e :: rest => exprHasZenRoute e || exprListHasZenRoute rest

def declsHaveZenRoute : List (Pat × Option Expr) → Bool
  | [] => false
  | (_, some e) :: rest => exprHasZenRoute e || declsHaveZenRoute rest
  | (_, none) :: rest => declsHaveZenRoute rest

def stmtHasZenRoute : Stmt → Bool
  | .exprStmt e => exprHasZenRoute e
  | .varDecl _ ds => declsHaveZenRoute ds
  | .funcDecl _ _ body => stmtsHaveZenRoute body
  | .block body => stmtsHaveZenRoute body
  | .empty => false
  | .tsDecl => false

def stmtsHaveZenRoute : List Stmt → Bool
  | [] => false
  | s :: rest => stmtHasZenRoute s || stmtsHaveZenRoute rest
end

/-- Is the statement a `zenRoute()` environment declaration, i.e. a variable
declaration one of whose declarators is initialized by a direct
`zenRoute(...)` call? -/
def isEnvCall : Stmt → Bool
  | .varDecl _ ds =>
      ds.any (fun d =>
        match d with
        | (_, some (.call (.ident n) _)) => n == "zenRoute"
        | _ => false)
  | _ => false

/-- The environment-resolution scan of the codegen pipeline (codegen.rs,
"ZENITH LAW: ENVIRONMENT RESOLUTION"): `zenRoute()` declarations are hoisted
verbatim into a prelude; any other statement containing a `zenRoute` call
triggers the `ZEN_ENV_TDZ_VIOLATION` hard abort, modelled as `Except.error`.
Returns the prelude lines and the remaining statements. -/
def processEnvStatements : List Stmt → Except String (List String × List Stmt)
  | [] => .ok ([], [])
  | s :: rest =>
      if isEnvCall s then
        match processEnvStatements rest with
        | .error e => .error e
        | .ok (pre, kept) => .ok (trimWs (emitStmt s) :: pre, kept)
      else if stmtHasZenRoute s then
        .error tdzPanicMsg
      else
        match processEnvStatements rest with
        | .error e => .error e
        | .ok (pre, kept) => .ok (pre, s :: kept)

/-- The program `count = 5;` (one expression statement). -/
def progCountAssign : List Stmt :=
  [Stmt.exprStmt (Expr.assign ("=") (Target.tId ("count")) (Expr.num 5))]

/-- Renamer state with `state_bindings = {count}` and a chosen
`is_event_handler` flag, mirroring `transform_code_with_guards` in
`safety_tests.rs`. -/
def ctxCount (h : Bool) : Ctx :=
  { withCategories ["count"] [] [] [] with isEventHandler := h }

/-- Renamer state with `prop_bindings = {title}` inside an event-handler
context. -/
def ctxPropHandler : Ctx :=
  { withCategories [] ["title"] [] [] with isEventHandler := true }

/-- Renamer state for the destructuring scenario: empty binding sets, the
initializer name `source` known as a module (import) binding. -/
def ctxC8 : Ctx :=
  { withCategories [] [] [] [] with moduleBindings := ["source"] }

/-- The statement `const \x7b a, b: renamed \x7d = source;`. -/
def stmtDestructure : Stmt :=
  Stmt.varDecl ("const")
    [(Pat.pObj [(some ("a"), Pat.pId ("a")), (some ("b"), Pat.pId ("renamed"))] none,
      some (Expr.ident ("source")))]

/-- The statement `const \x7b a \x7d = a;` (the declared name appears in its own
initializer). -/
def stmtSelfRef : Stmt :=
  Stmt.varDecl ("const")
    [(Pat.pObj [(some ("a"), Pat.pId ("a"))] none, some (Expr.ident ("a")))]

/-- The program `count += 1;`. -/
def progCountCompound : List Stmt :=
  [Stmt.exprStmt (Expr.assign ("+=") (Target.tId ("count")) (Expr.num 1))]

/-- The program `zenEffect(render);` — the expression the repository's own
`test_reproduction_docs_order` feeds through `compute_expression_intent`. -/
def progZenEffectRender : List Stmt :=
  [Stmt.exprStmt (Expr.call (Expr.ident ("zenEffect")) [Expr.ident ("render")])]

set_option maxRecDepth 100000

theorem ctx_ne_of_tail_ne {c : Ctx} (h : c.scopeStack.tail ≠ []) :
    c.scopeStack ≠ [] := by
  intro hc
  rw [hc] at h
  exact h rfl

theorem ctxBelow_refl {c : Ctx} (h : c.scopeStack ≠ []) : ctxBelow c c := by
  obtain ⟨f, t, hft⟩ := List.exists_cons_of_ne_nil h
  exact ⟨f, by cases c with | mk => simp_all⟩

theorem ctxBelow_trans {a b c : Ctx} (h1 : ctxBelow a b) (h2 : ctxBelow b c) :
    ctxBelow a c := by
  obtain ⟨f1, rfl⟩ := h1
  obtain ⟨f2, rfl⟩ := h2
  exact ⟨f2, rfl⟩

theorem ctxBelow_tail {c c' : Ctx} (h : ctxBelow c c') :
    c'.scopeStack.tail = c.scopeStack.tail := by
  obtain ⟨f, rfl⟩ := h
  rfl

theorem ctxBelow_addLocal {c c' : Ctx} (n : String) (h : ctxBelow c c') :
    ctxBelow c (addLocal c' n) := by
  obtain ⟨f, rfl⟩ := h
  exact ⟨insertStr f n, by simp [addLocal]⟩

theorem ctxBelow_foldl_addLocal {c c' : Ctx} (ns : List String) (h : ctxBelow c c') :
    ctxBelow c (ns.foldl addLocal c') := by
  induction ns generalizing c' with
  | nil => exact h
  | cons a t ih => exact ih (ctxBelow_addLocal a h)

theorem ctxBelow_collect {c c' : Ctx} (p : Pat) (h : ctxBelow c c') :
    ctxBelow c (collectBindingNames c' p) :=
  ctxBelow_foldl_addLocal (collectNames p) h

theorem length_beq_one_false {c : Ctx} (h : c.scopeStack.tail ≠ []) :
    (c.scopeStack.length == 1) = false := by
  obtain ⟨f, t, hft⟩ := List.exists_cons_of_ne_nil (ctx_ne_of_tail_ne h)
  rw [hft] at h ⊢
  simp only [List.tail_cons] at h
  obtain ⟨g, u, hgu⟩ := List.exists_cons_of_ne_nil h
  simp [hgu]

theorem ctxBelow_foldl_collect {c c' : Ctx} (ps : List Pat) (h : ctxBelow c c') :
    ctxBelow c (ps.foldl collectBindingNames c') := by
  induction ps generalizing c' with
  | nil => exact h
  | cons p t ih => exact ih (ctxBelow_collect p h)

theorem ctxBelow_push_pop {c c2 : Ctx} (hb : ctxBelow (pushScope c) c2) :
    popScope c2 = c := by
  obtain ⟨f, rfl⟩ := hb
  cases c with
  | mk => rfl

mutual
/-- Context preservation: visiting an expression with a non-empty scope
stack restores the renamer context exactly. -/
theorem preVE : ∀ (e : Expr) (c : Ctx) (o : Out), c.scopeStack ≠ [] →
    (visitExpr c o e).2.1 = c
  | .ident n, c, o, _h => by
      simp only [visitExpr]
      split <;> first | rfl | (split <;> rfl)
  | .num _, _, _, _h => rfl
  | .staticMember obj _, c, o, h => preVE obj c o h
  | .computedMember obj k, c, o, h => by
      simp only [visitExpr]
      rw [preVE obj c o h]
      exact preVE k c _ h
  | .assign _ t v, c, o, h => by
      simp only [visitExpr]
      rw [preVT t c o h]
      exact preVE v c _ h
  | .update _ _ t, c, o, h => preVT t c o h
  | .call f args, c, o, h => by
      simp only [visitExpr]
      rw [preVE f c o h]
      exact preVEL args c _ h
  | .seqExpr items, c, o, h => preVEL items c o h
  | .arrow ps body, c, o, h => by
      simp only [visitExpr]
      have hb : ctxBelow (pushScope { c with disallowReactiveAccess := false })
          (ps.foldl collectBindingNames
            (pushScope { c with disallowReactiveAccess := false })) :=
        ctxBelow_foldl_collect ps (ctxBelow_refl (by simp [pushScope]))
      have htail : (ps.foldl collectBindingNames
          (pushScope { c with disallowReactiveAccess := false })).scopeStack.tail ≠ [] := by
        rw [ctxBelow_tail hb]
        exact h
      have hb2 := ctxBelow_trans hb
        (preVSS body _ o htail)
      rw [ctxBelow_push_pop hb2]
  | .funcExpr _ ps body, c, o, h => by
      simp only [visitExpr]
      have hb : ctxBelow (pushScope { c with disallowReactiveAccess := false })
          (ps.foldl collectBindingNames
            (pushScope { c with disallowReactiveAccess := false })) :=
        ctxBelow_foldl_collect ps (ctxBelow_refl (by simp [pushScope]))
      have htail : (ps.foldl collectBindingNames
          (pushScope { c with disallowReactiveAccess := false })).scopeStack.tail ≠ [] := by
        rw [ctxBelow_tail hb]
        exact h
      have hb2 := ctxBelow_trans hb
        (preVSS body _ o htail)
      rw [ctxBelow_push_pop hb2]

/-- Context preservation for assignment targets. -/
theorem preVT : ∀ (t : Target) (c : Ctx) (o : Out), c.scopeStack ≠ [] →
    (visitTarget c o t).2.1 = c
  | .tId n, c, o, _h => by
      simp only [visitTarget]
      split <;> rfl
  | .tStatic obj _, c, o, h => preVE obj c o h
  | .tComputed obj k, c, o, h => by
      simp only [visitTarget]
      rw [preVE obj c o h]
      exact preVE k c _ h

/-- Context preservation for expression lists. -/
theorem preVEL : ∀ (es : List Expr) (c : Ctx) (o : Out), c.scopeStack ≠ [] →
    (visitExprList c o es).2.1 = c
  | [], _, _, _h => rfl
  | e :: rest, c, o, h => by
      simp only [visitExprList]
      rw [preVE e c o h]
      exact preVEL rest c _ h

/-- Below the top level, the declarator loop touches at most the innermost
scope frame (no hoisting registration can fire). -/
theorem preVD : ∀ (ds : List (Pat × Option Expr)) (c : Ctx) (o : Out)
    (asns : List Expr) (allH : Bool), c.scopeStack.tail ≠ [] →
    ctxBelow c (visitDecls false c o asns allH ds).2.2.2.1
  | [], c, _, _, _, h => ctxBelow_refl (ctx_ne_of_tail_ne h)
  | (Pat.pId name, some e) :: rest, c, o, asns, allH, h => by
      simp only [visitDecls, Bool.false_and, Bool.false_or, if_false]
      split
      · rw [preVE e c o (ctx_ne_of_tail_ne h)]
        exact preVD rest c _ _ _ h
      · rw [preVE e (addLocal c name) o (ctx_ne_of_tail_ne
          (by rw [ctxBelow_tail (ctxBelow_addLocal name
            (ctxBelow_refl (ctx_ne_of_tail_ne h)))]; exact h))]
        exact ctxBelow_trans
          (ctxBelow_addLocal name (ctxBelow_refl (ctx_ne_of_tail_ne h)))
          (preVD rest (addLocal c name) _ _ _
            (by rw [ctxBelow_tail (ctxBelow_addLocal name
              (ctxBelow_refl (ctx_ne_of_tail_ne h)))]; exact h))
  | (Pat.pId name, none) :: rest, c, o, asns, allH, h => by
      simp only [visitDecls, Bool.false_and, Bool.false_or, if_false]
      split
      · exact preVD rest c _ _ _ h
      · exact ctxBelow_trans
          (ctxBelow_addLocal name (ctxBelow_refl (ctx_ne_of_tail_ne h)))
          (preVD rest (addLocal c name) _ _ _
            (by rw [ctxBelow_tail (ctxBelow_addLocal name
              (ctxBelow_refl (ctx_ne_of_tail_ne h)))]; exact h))
  | (Pat.pObj props r0, some e) :: rest, c, o, asns, allH, h => by
      simp only [visitDecls, Bool.false_eq_true, if_false]
      have hb := @ctxBelow_collect c c (Pat.pObj props r0)
        (ctxBelow_refl (ctx_ne_of_tail_ne h))
      have htail : (collectBindingNames c (Pat.pObj props r0)).scopeStack.tail ≠ [] := by
        rw [ctxBelow_tail hb]; exact h
      rw [preVE e (collectBindingNames c (Pat.pObj props r0)) o (ctx_ne_of_tail_ne htail)]
      exact ctxBelow_trans hb (preVD rest _ _ _ _ htail)
  | (Pat.pObj props r0, none) :: rest, c, o, asns, allH, h => by
      simp only [visitDecls, Bool.false_eq_true, if_false]
      have hb := @ctxBelow_collect c c (Pat.pObj props r0)
        (ctxBelow_refl (ctx_ne_of_tail_ne h))
      have htail : (collectBindingNames c (Pat.pObj props r0)).scopeStack.tail ≠ [] := by
        rw [ctxBelow_tail hb]; exact h
      exact ctxBelow_trans hb (preVD rest _ _ _ _ htail)
  | (Pat.pArr elems r0, some e) :: rest, c, o, asns, allH, h => by
      simp only [visitDecls, Bool.false_eq_true, if_false]
      have hb := @ctxBelow_collect c c (Pat.pArr elems r0)
        (ctxBelow_refl (ctx_ne_of_tail_ne h))
      have htail : (collectBindingNames c (Pat.pArr elems r0)).scopeStack.tail ≠ [] := by
        rw [ctxBelow_tail hb]; exact h
      rw [preVE e (collectBindingNames c (Pat.pArr elems r0)) o (ctx_ne_of_tail_ne htail)]
      exact ctxBelow_trans hb (preVD rest _ _ _ _ htail)
  | (Pat.pArr elems r0, none) :: rest, c, o, asns, allH, h => by
      simp only [visitDecls, Bool.false_eq_true, if_false]
      have hb := @ctxBelow_collect c c (Pat.pArr elems r0)
        (ctxBelow_refl (ctx_ne_of_tail_ne h))
      have htail : (collectBindingNames c (Pat.pArr elems r0)).scopeStack.tail ≠ [] := by
        rw [ctxBelow_tail hb]; exact h
      exact ctxBelow_trans hb (preVD rest _ _ _ _ htail)

/-- Below the top level, a statement visit touches at most the innermost
scope frame. -/
theorem preVS : ∀ (s : Stmt) (c : Ctx) (o : Out), c.scopeStack.tail ≠ [] →
    ctxBelow c (visitStmt c o s).2.1
  | .exprStmt e, c, o, h => by
      simp only [visitStmt]
      rw [preVE e c o (ctx_ne_of_tail_ne h)]
      exact ctxBelow_refl (ctx_ne_of_tail_ne h)
  | .varDecl kind decls, c, o, h => by
      have hd := preVD decls c o [] true h
      simp only [visitStmt, length_beq_one_false h]
      split
      · split <;> exact hd
      · exact hd
  | .funcDecl name ps body, c, o, h => by
      simp only [visitStmt, length_beq_one_false h, Bool.false_and]
      have hb : ctxBelow (pushScope { c with disallowReactiveAccess := false })
          (ps.foldl collectBindingNames
            (pushScope { c with disallowReactiveAccess := false })) :=
        ctxBelow_foldl_collect ps (ctxBelow_refl (by simp [pushScope]))
      have htail : (ps.foldl collectBindingNames
          (pushScope { c with disallowReactiveAccess := false })).scopeStack.tail ≠ [] := by
        rw [ctxBelow_tail hb]
        exact ctx_ne_of_tail_ne h
      have hb2 := ctxBelow_trans hb (preVSS body _ o htail)
      rw [ctxBelow_push_pop hb2]
      have : ({ { c with disallowReactiveAccess := false } with
          disallowReactiveAccess := c.disallowReactiveAccess } : Ctx) = c := by
        cases c with
        | mk => rfl
      rw [this]
      exact ctxBelow_refl (ctx_ne_of_tail_ne h)
  | .block body, c, o, h => by
      simp only [visitStmt]
      have hb := preVSkip body (pushScope c) o (ctx_ne_of_tail_ne h)
      rw [ctxBelow_push_pop hb]
      exact ctxBelow_refl (ctx_ne_of_tail_ne h)
  | .empty, c, _, h => ctxBelow_refl (ctx_ne_of_tail_ne h)
  | .tsDecl, c, _, h => ctxBelow_refl (ctx_ne_of_tail_ne h)

/-- Below the top level, a statement-list visit touches at most the
innermost scope frame. -/
theorem preVSS : ∀ (ss : List Stmt) (c : Ctx) (o : Out), c.scopeStack.tail ≠ [] →
    ctxBelow c (visitStmts c o ss).2.1
  | [], c, _, h => ctxBelow_refl (ctx_ne_of_tail_ne h)
  | s :: rest, c, o, h => by
      simp only [visitStmts]
      have h1 := preVS s c o h
      have htail : ((visitStmt c o s).2.1).scopeStack.tail ≠ [] := by
        rw [ctxBelow_tail h1]; exact h
      exact ctxBelow_trans h1 (preVSS rest _ _ htail)

/-- Below the top level, the fused TS-skipping statement-list visit touches
at most the innermost scope frame. -/
theorem preVSkip : ∀ (ss : List Stmt) (c : Ctx) (o : Out), c.scopeStack.tail ≠ [] →
    ctxBelow c (visitStmtsSkipTs c o ss).2.1
  | [], c, _, h => ctxBelow_refl (ctx_ne_of_tail_ne h)
  | s :: rest, c, o, h => by
      simp only [visitStmtsSkipTs]
      split
      · exact preVSkip rest c o h
      · have h1 := preVS s c o h
        have htail : ((visitStmt c o s).2.1).scopeStack.tail ≠ [] := by
          rw [ctxBelow_tail h1]; exact h
        exact ctxBelow_trans h1 (preVSkip rest _ _ htail)
end

theorem noUndef_ctxBelow {c c' : Ctx} (hb : ctxBelow c c')
    (h : noUndefinedBinding c) : noUndefinedBinding c' := by
  obtain ⟨f, rfl⟩ := hb
  exact h

theorem addLocal_noUndef {c : Ctx} (n : String) (h : noUndefinedBinding c) :
    noUndefinedBinding (addLocal c n) := by
  cases hs : c.scopeStack with
  | nil => simpa [addLocal, hs] using h
  | cons f t => simpa [noUndefinedBinding, addLocal, hs] using h

theorem noUndef_foldl {ns : List String} {c : Ctx} (h : noUndefinedBinding c) :
    noUndefinedBinding (ns.foldl addLocal c) := by
  induction ns generalizing c with
  | nil => exact h
  | cons a t ih => exact ih (addLocal_noUndef a h)

theorem noUndef_collect {c : Ctx} (p : Pat) (h : noUndefinedBinding c) :
    noUndefinedBinding (collectBindingNames c p) :=
  noUndef_foldl h

theorem noUndef_foldl_collect {ps : List Pat} {c : Ctx} (h : noUndefinedBinding c) :
    noUndefinedBinding (ps.foldl collectBindingNames c) := by
  induction ps generalizing c with
  | nil => exact h
  | cons p t ih => exact ih (noUndef_collect p h)

/-- Visiting the bare identifier `scope` never changes anything: the first
classification rule fires for every context. -/
theorem scopeIdentStable (c : Ctx) (o : Out) :
    visitExpr c o (Expr.ident ("scope")) = (Expr.ident ("scope"), c, o) := rfl

/-- Visiting `scope.<cat>` is the identity: only the object `scope` is
visited, and it is stable. -/
theorem scopeCatStable (c : Ctx) (o : Out) (cat : String) :
    visitExpr c o (Expr.staticMember (Expr.ident ("scope")) cat) =
      (Expr.staticMember (Expr.ident ("scope")) cat, c, o) := rfl

/-- Visiting a fully qualified `scope.<cat>.<m>` expression is the identity:
member property names are never reclassified. -/
theorem memberEStable (c : Ctx) (o : Out) (cat m : String) :
    visitExpr c o (memberAccessE cat m) = (memberAccessE cat m, c, o) := rfl

/-- Visiting a fully qualified member-expression assignment target is the
identity. -/
theorem memberTStable (c : Ctx) (o : Out) (cat m : String) :
    visitTarget c o (memberAccessT cat m) = (memberAccessT cat m, c, o) := rfl

/-- With no binding set claiming `undefined`, the bare `undefined` reference
is left untouched (it is a scope-stack local or a whitelisted global). -/
theorem undefinedStable (c : Ctx) (o : Out) (h : noUndefinedBinding c) :
    visitExpr c o (Expr.ident ("undefined")) = (Expr.ident ("undefined"), c, o) := by
  obtain ⟨h1b, h2b, h3b, h4b⟩ := h
  have h1 : ("undefined") ∉ c.localBindings := by simpa using h1b
  have h2 : ("undefined") ∉ c.externalLocals := by simpa using h2b
  have h3 : ("undefined") ∉ c.stateBindings := by simpa using h3b
  have h4 : ("undefined") ∉ c.propBindings := by simpa using h4b
  have hprot : (("undefined" == "scope" || "undefined" == "state" ||
      "undefined" == "props" || "undefined" == "locals") : Bool) = false := by decide
  cases hl : isLocalName c ("undefined") with
  | true =>
      have hcl : classifyIdentifier c ("undefined") = .LocalRef ("undefined") := by
        simp [classifyIdentifier, hprot, hl]
      simp [visitExpr, hcl]
  | false =>
      cases hm : c.moduleBindings.contains ("undefined") with
      | true =>
          have hm' : ("undefined") ∈ c.moduleBindings := by simpa using hm
          have hcl : classifyIdentifier c ("undefined") = .GlobalRef ("undefined") := by
            simp [classifyIdentifier, hprot, hl, h1, h2, h3, h4, hm']
          simp [visitExpr, hcl]
      | false =>
          have hm' : ("undefined") ∉ c.moduleBindings := by simpa using hm
          have hcl : classifyIdentifier c ("undefined") = .GlobalRef ("undefined") := by
            simp [classifyIdentifier, hprot, hl, h1, h2, h3, h4, hm',
              show isGlobalName ("undefined") = true by decide]
          simp [visitExpr, hcl]

theorem exprListStable_visit {c : Ctx} {t : List Expr} (hst : exprListStable c t) :
    ∀ o, (visitExprList c o t).1 = t ∧ (visitExprList c o t).2.1 = c := by
  induction t with
  | nil => intro o; exact ⟨rfl, rfl⟩
  | cons a rest ih =>
      intro o
      have ha := hst a (List.mem_cons_self a rest) o
      have hrest := ih (fun e he => hst e (List.mem_cons_of_mem a he))
        (visitExpr c o a).2.2
      simp only [visitExprList]
      rw [ha.1, ha.2]
      exact ⟨by rw [hrest.1], hrest.2⟩

/-- The statement visit only produces a TS type-only node when fed one. -/
theorem visitStmt_not_ts (s : Stmt) (c : Ctx) (o : Out)
    (h : isTsNode s = false) : isTsNode (visitStmt c o s).1 = false := by
  cases s with
  | exprStmt e => rfl
  | varDecl kind decls =>
      simp only [visitStmt]
      split
      · split <;> rfl
      · rfl
  | funcDecl name ps body =>
      simp only [visitStmt]
      split <;> rfl
  | block body => rfl
  | empty => rfl
  | tsDecl => exact absurd h (by decide)

/-- Unfolding of the assignment-expression case of the visitor. -/
theorem visitExpr_assign_eq (c : Ctx) (o : Out) (op : String) (t : Target) (v : Expr) :
    visitExpr c o (Expr.assign op t v) =
      (Expr.assign op (visitTarget c o t).1
        (visitExpr (visitTarget c o t).2.1 (visitTarget c o t).2.2 v).1,
       (visitExpr (visitTarget c o t).2.1 (visitTarget c o t).2.2 v).2.1,
       (visitExpr (visitTarget c o t).2.1 (visitTarget c o t).2.2 v).2.2) := rfl

mutual
/-- Idempotence of the rewrite on expressions: re-visiting the output of a
visit (same context, any accumulated output) returns it unchanged. -/
theorem ideVE : ∀ (e : Expr) (c : Ctx) (o₀ o₁ : Out), c.scopeStack ≠ [] →
    noUndefinedBinding c →
    (visitExpr c o₁ (visitExpr c o₀ e).1).1 = (visitExpr c o₀ e).1
  | .ident n, c, o₀, o₁, h, hU => by
      rcases hcl : classifyIdentifier c n with m | m | m | m | m | m
      · have h1 : (visitExpr c o₀ (Expr.ident n)).1 = memberAccessE ("state") m := by
          simp only [visitExpr, hcl]
        rw [h1, memberEStable]
      · have h1 : (visitExpr c o₀ (Expr.ident n)).1 = memberAccessE ("props") m := by
          simp only [visitExpr, hcl]
        rw [h1, memberEStable]
      · simp only [visitExpr, hcl]
      · have h1 : (visitExpr c o₀ (Expr.ident n)).1 = memberAccessE ("locals") m := by
          simp only [visitExpr, hcl]
        rw [h1, memberEStable]
      · by_cases hb : (m == "state" || m == "props" || m == "locals") = true
        · have h1 : (visitExpr c o₀ (Expr.ident n)).1 =
              Expr.staticMember (Expr.ident ("scope")) m := by
            simp only [visitExpr, hcl, hb, if_true]
          rw [h1, scopeCatStable]
        · have h1 : (visitExpr c o₀ (Expr.ident n)).1 = Expr.ident n := by
            simp only [visitExpr, hcl, hb, Bool.false_eq_true, if_false]
          rw [h1]
          simp only [visitExpr, hcl, hb, Bool.false_eq_true, if_false]
      · simp only [visitExpr, hcl]
  | .num _, _, _, _, _h, _hU => rfl
  | .staticMember obj p, c, o₀, o₁, h, hU => by
      simp only [visitExpr]
      rw [ideVE obj c o₀ o₁ h hU]
  | .computedMember obj k, c, o₀, o₁, h, hU => by
      simp only [visitExpr]
      rw [preVE obj c o₀ h, preVE ((visitExpr c o₀ obj).1) c o₁ h,
        ideVE obj c o₀ o₁ h hU, ideVE k c _ _ h hU]
  | .assign op t v, c, o₀, o₁, h, hU => by
      simp only [visitExpr]
      rw [preVT t c o₀ h, preVT ((visitTarget c o₀ t).1) c o₁ h,
        ideVT t c o₀ o₁ h hU, ideVE v c _ _ h hU]
  | .update op pre t, c, o₀, o₁, h, hU => by
      simp only [visitExpr]
      rw [ideVT t c o₀ o₁ h hU]
  | .call f args, c, o₀, o₁, h, hU => by
      simp only [visitExpr]
      rw [preVE f c o₀ h, preVE ((visitExpr c o₀ f).1) c o₁ h,
        ideVE f c o₀ o₁ h hU, ideVEL args c _ _ h hU]
  | .seqExpr items, c, o₀, o₁, h, hU => by
      simp only [visitExpr]
      rw [ideVEL items c o₀ o₁ h hU]
  | .arrow ps body, c, o₀, o₁, h, hU => by
      have hbc : ctxBelow (pushScope { c with disallowReactiveAccess := false })
          (ps.foldl collectBindingNames
            (pushScope { c with disallowReactiveAccess := false })) :=
        ctxBelow_foldl_collect ps (ctxBelow_refl (by simp [pushScope]))
      have htail : (ps.foldl collectBindingNames
          (pushScope { c with disallowReactiveAccess := false })).scopeStack.tail ≠ [] := by
        rw [ctxBelow_tail hbc]
        exact h
      have hU1 : noUndefinedBinding (ps.foldl collectBindingNames
          (pushScope { c with disallowReactiveAccess := false })) :=
        noUndef_ctxBelow hbc hU
      simp only [visitExpr]
      rw [(ideVSS body _ o₀ o₁ htail hU1).1]
  | .funcExpr id ps body, c, o₀, o₁, h, hU => by
      have hbc : ctxBelow (pushScope { c with disallowReactiveAccess := false })
          (ps.foldl collectBindingNames
            (pushScope { c with disallowReactiveAccess := false })) :=
        ctxBelow_foldl_collect ps (ctxBelow_refl (by simp [pushScope]))
      have htail : (ps.foldl collectBindingNames
          (pushScope { c with disallowReactiveAccess := false })).scopeStack.tail ≠ [] := by
        rw [ctxBelow_tail hbc]
        exact h
      have hU1 : noUndefinedBinding (ps.foldl collectBindingNames
          (pushScope { c with disallowReactiveAccess := false })) :=
        noUndef_ctxBelow hbc hU
      simp only [visitExpr]
      rw [(ideVSS body _ o₀ o₁ htail hU1).1]

/-- Idempotence of the rewrite on assignment targets. -/
theorem ideVT : ∀ (t : Target) (c : Ctx) (o₀ o₁ : Out), c.scopeStack ≠ [] →
    noUndefinedBinding c →
    (visitTarget c o₁ (visitTarget c o₀ t).1).1 = (visitTarget c o₀ t).1
  | .tId n, c, o₀, o₁, h, hU => by
      rcases hcl : classifyIdentifier c n with m | m | m | m | m | m
      · have h1 : (visitTarget c o₀ (Target.tId n)).1 = memberAccessT ("state") m := by
          simp only [visitTarget, hcl]
        rw [h1, memberTStable]
      · have h1 : (visitTarget c o₀ (Target.tId n)).1 = memberAccessT ("props") m := by
          simp only [visitTarget, hcl]
        rw [h1, memberTStable]
      · simp only [visitTarget, hcl]
      · have h1 : (visitTarget c o₀ (Target.tId n)).1 = memberAccessT ("locals") m := by
          simp only [visitTarget, hcl]
        rw [h1, memberTStable]
      · simp only [visitTarget, hcl]
      · simp only [visitTarget, hcl]
  | .tStatic obj p, c, o₀, o₁, h, hU => by
      simp only [visitTarget]
      rw [ideVE obj c o₀ o₁ h hU]
  | .tComputed obj k, c, o₀, o₁, h, hU => by
      simp only [visitTarget]
      rw [preVE obj c o₀ h, preVE ((visitExpr c o₀ obj).1) c o₁ h,
        ideVE obj c o₀ o₁ h hU, ideVE k c _ _ h hU]

/-- Idempotence of the rewrite on expression lists. -/
theorem ideVEL : ∀ (es : List Expr) (c : Ctx) (o₀ o₁ : Out), c.scopeStack ≠ [] →
    noUndefinedBinding c →
    (visitExprList c o₁ (visitExprList c o₀ es).1).1 = (visitExprList c o₀ es).1
  | [], _, _, _, _h, _hU => rfl
  | e :: rest, c, o₀, o₁, h, hU => by
      simp only [visitExprList]
      rw [preVE e c o₀ h, preVE ((visitExpr c o₀ e).1) c o₁ h,
        ideVE e c o₀ o₁ h hU, ideVEL rest c _ _ h hU]

/-- Idempotence and bookkeeping of the declarator loop below the top level:
the produced assignments extend the accumulator by a suffix which is stable
when everything hoisted, the `all_hoisted` flag is the conjunction of its
input with a fixed residue, an all-hoisted run leaves the context unchanged,
and re-running the loop on its own output reproduces declarators, flag
residue and context. -/
theorem ideVD : ∀ (ds : List (Pat × Option Expr)) (c : Ctx) (o₀ : Out)
    (a₀ : List Expr) (h₀ : Bool), c.scopeStack.tail ≠ [] → noUndefinedBinding c →
    ∃ d t,
      (visitDecls false c o₀ a₀ h₀ ds).2.1 = a₀ ++ t ∧
      (visitDecls false c o₀ a₀ h₀ ds).2.2.1 = (h₀ && d) ∧
      (d = true → (visitDecls false c o₀ a₀ h₀ ds).2.2.2.1 = c) ∧
      (d = true → exprListStable c t) ∧
      (∀ (o₁ : Out) (a₁ : List Expr) (h₁ : Bool),
        ∃ t',
          (visitDecls false c o₁ a₁ h₁ (visitDecls false c o₀ a₀ h₀ ds).1).1 =
            (visitDecls false c o₀ a₀ h₀ ds).1 ∧
          (visitDecls false c o₁ a₁ h₁ (visitDecls false c o₀ a₀ h₀ ds).1).2.1 =
            a₁ ++ t' ∧
          (t' = [] ↔ t = []) ∧
          (visitDecls false c o₁ a₁ h₁ (visitDecls false c o₀ a₀ h₀ ds).1).2.2.1 =
            (h₁ && d) ∧
          (visitDecls false c o₁ a₁ h₁ (visitDecls false c o₀ a₀ h₀ ds).1).2.2.2.1 =
            (visitDecls false c o₀ a₀ h₀ ds).2.2.2.1)
  | [], c, o₀, a₀, h₀, h, hU => by
      refine ⟨true, [], by simp [visitDecls], by simp [visitDecls], fun _ => rfl,
        fun _ e he => absurd he (List.not_mem_nil e), ?_⟩
      intro o₁ a₁ h₁
      exact ⟨[], rfl, by simp [visitDecls], Iff.rfl, by simp [visitDecls], rfl⟩
  | (Pat.pId name, some e) :: rest, c, o₀, a₀, h₀, h, hU => by
      have hc := ctx_ne_of_tail_ne h
      by_cases hsh : (c.stateBindings.contains name || c.propBindings.contains name ||
          c.localBindings.contains name) = true
      · -- hoisted declarator (state/prop/explicit-local name)
        have hstep : ∀ (e' : Expr) (ds' : List (Pat × Option Expr)) (o : Out)
            (a : List Expr) (hh : Bool),
            visitDecls false c o a hh ((Pat.pId name, some e') :: ds') =
              ((Pat.pId name, some (visitExpr c o e').1) ::
                  (visitDecls false c (visitExpr c o e').2.2
                    (a ++ [Expr.assign ("=")
                      (memberAccessT (stateMemberCat c name) name)
                      (visitExpr c o e').1]) hh ds').1,
                (visitDecls false c (visitExpr c o e').2.2
                  (a ++ [Expr.assign ("=")
                    (memberAccessT (stateMemberCat c name) name)
                    (visitExpr c o e').1]) hh ds').2) := by
          intro e' ds' o a hh
          simp only [visitDecls, Bool.false_or, hsh, if_true, Bool.false_and,
            Bool.false_eq_true, if_false]
          rw [preVE e' c o hc]
        obtain ⟨d, t, ih1, ih2, ih3, ih4, ih5⟩ :=
          ideVD rest c (visitExpr c o₀ e).2.2
            (a₀ ++ [Expr.assign ("=") (memberAccessT (stateMemberCat c name) name)
              (visitExpr c o₀ e).1]) h₀ h hU
        have hasn : exprStable c (Expr.assign ("=")
            (memberAccessT (stateMemberCat c name) name) (visitExpr c o₀ e).1) := by
          intro o
          simp only [visitExpr_assign_eq, memberTStable]
          exact ⟨by rw [ideVE e c o₀ o hc hU], by rw [preVE ((visitExpr c o₀ e).1) c o hc]⟩
        refine ⟨d, Expr.assign ("=") (memberAccessT (stateMemberCat c name) name)
            (visitExpr c o₀ e).1 :: t, ?_, ?_, ?_, ?_, ?_⟩
        · rw [hstep e rest o₀ a₀ h₀]
          simpa [List.append_assoc] using ih1
        · rw [hstep e rest o₀ a₀ h₀]
          exact ih2
        · intro hd
          rw [hstep e rest o₀ a₀ h₀]
          exact ih3 hd
        · intro hd e' he'
          rcases List.mem_cons.mp he' with he' | he'
          · rw [he']
            exact hasn
          · exact ih4 hd e' he'
        · intro o₁ a₁ h₁
          rw [hstep e rest o₀ a₀ h₀]
          rw [hstep ((visitExpr c o₀ e).1)
            ((visitDecls false c (visitExpr c o₀ e).2.2
              (a₀ ++ [Expr.assign ("=") (memberAccessT (stateMemberCat c name) name)
                (visitExpr c o₀ e).1]) h₀ rest).1) o₁ a₁ h₁]
          rw [ideVE e c o₀ o₁ hc hU]
          obtain ⟨t', j1, j2, j3, j4, j5⟩ := ih5 ((visitExpr c o₁ (visitExpr c o₀ e).1).2.2)
            (a₁ ++ [Expr.assign ("=") (memberAccessT (stateMemberCat c name) name)
              (visitExpr c o₀ e).1]) h₁
          refine ⟨Expr.assign ("=") (memberAccessT (stateMemberCat c name) name)
              (visitExpr c o₀ e).1 :: t', ?_, ?_, by simp, ?_, ?_⟩
          · rw [j1]
          · rw [j2]
            simp [List.append_assoc]
          · exact j4
          · exact j5
      · -- plain local declarator: added to the innermost frame, not hoisted
        have hb1 : ctxBelow c (addLocal c name) :=
          ctxBelow_addLocal name (ctxBelow_refl hc)
        have htail1 : (addLocal c name).scopeStack.tail ≠ [] := by
          rw [ctxBelow_tail hb1]
          exact h
        have hc1 : (addLocal c name).scopeStack ≠ [] := ctx_ne_of_tail_ne htail1
        have hU1 : noUndefinedBinding (addLocal c name) := noUndef_ctxBelow hb1 hU
        have hstep : ∀ (e' : Expr) (ds' : List (Pat × Option Expr)) (o : Out)
            (a : List Expr) (hh : Bool),
            visitDecls false c o a hh ((Pat.pId name, some e') :: ds') =
              ((Pat.pId name, some (visitExpr (addLocal c name) o e').1) ::
                  (visitDecls false (addLocal c name)
                    (visitExpr (addLocal c name) o e').2.2 a false ds').1,
                (visitDecls false (addLocal c name)
                  (visitExpr (addLocal c name) o e').2.2 a false ds').2) := by
          intro e' ds' o a hh
          simp only [visitDecls, Bool.false_or, hsh, Bool.false_eq_true, if_false]
          rw [preVE e' (addLocal c name) o hc1]
        obtain ⟨d, t, ih1, ih2, ih3, ih4, ih5⟩ :=
          ideVD rest (addLocal c name) (visitExpr (addLocal c name) o₀ e).2.2
            a₀ false htail1 hU1
        refine ⟨false, t, ?_, ?_, fun hx => absurd hx Bool.false_ne_true,
          fun hx => absurd hx Bool.false_ne_true, ?_⟩
        · rw [hstep e rest o₀ a₀ h₀]
          exact ih1
        · rw [hstep e rest o₀ a₀ h₀]
          rw [ih2]
          simp
        · intro o₁ a₁ h₁
          rw [hstep e rest o₀ a₀ h₀]
          rw [hstep ((visitExpr (addLocal c name) o₀ e).1)
            ((visitDecls false (addLocal c name)
              (visitExpr (addLocal c name) o₀ e).2.2 a₀ false rest).1) o₁ a₁ h₁]
          rw [ideVE e (addLocal c name) o₀ o₁ hc1 hU1]
          obtain ⟨t', j1, j2, j3, j4, j5⟩ := ih5
            ((visitExpr (addLocal c name) o₁
              (visitExpr (addLocal c name) o₀ e).1).2.2) a₁ false
          refine ⟨t', ?_, ?_, j3, ?_, ?_⟩
          · rw [j1]
          · rw [j2]
          · rw [j4]
            simp
          · exact j5
  | (Pat.pId name, none) :: rest, c, o₀, a₀, h₀, h, hU => by
      have hc := ctx_ne_of_tail_ne h
      by_cases hsh : (c.stateBindings.contains name || c.propBindings.contains name ||
          c.localBindings.contains name) = true
      · have hstep : ∀ (ds' : List (Pat × Option Expr)) (o : Out)
            (a : List Expr) (hh : Bool),
            visitDecls false c o a hh ((Pat.pId name, none) :: ds') =
              ((Pat.pId name, none) ::
                  (visitDecls false c o
                    (a ++ [Expr.assign ("=")
                      (memberAccessT (stateMemberCat c name) name)
                      (Expr.ident ("undefined"))]) hh ds').1,
                (visitDecls false c o
                  (a ++ [Expr.assign ("=")
                    (memberAccessT (stateMemberCat c name) name)
                    (Expr.ident ("undefined"))]) hh ds').2) := by
          intro ds' o a hh
          simp only [visitDecls, Bool.false_or, hsh, if_true, Bool.false_and,
            Bool.false_eq_true, if_false]
        obtain ⟨d, t, ih1, ih2, ih3, ih4, ih5⟩ :=
          ideVD rest c o₀
            (a₀ ++ [Expr.assign ("=") (memberAccessT (stateMemberCat c name) name)
              (Expr.ident ("undefined"))]) h₀ h hU
        have hasn : exprStable c (Expr.assign ("=")
            (memberAccessT (stateMemberCat c name) name) (Expr.ident ("undefined"))) := by
          intro o
          simp only [visitExpr_assign_eq, memberTStable]
          rw [undefinedStable c o hU]
          exact ⟨rfl, rfl⟩
        refine ⟨d, Expr.assign ("=") (memberAccessT (stateMemberCat c name) name)
            (Expr.ident ("undefined")) :: t, ?_, ?_, ?_, ?_, ?_⟩
        · rw [hstep rest o₀ a₀ h₀]
          simpa [List.append_assoc] using ih1
        · rw [hstep rest o₀ a₀ h₀]
          exact ih2
        · intro hd
          rw [hstep rest o₀ a₀ h₀]
          exact ih3 hd
        · intro hd e' he'
          rcases List.mem_cons.mp he' with he' | he'
          · rw [he']
            exact hasn
          · exact ih4 hd e' he'
        · intro o₁ a₁ h₁
          rw [hstep rest o₀ a₀ h₀]
          rw [hstep ((visitDecls false c o₀
            (a₀ ++ [Expr.assign ("=") (memberAccessT (stateMemberCat c name) name)
              (Expr.ident ("undefined"))]) h₀ rest).1) o₁ a₁ h₁]
          obtain ⟨t', j1, j2, j3, j4, j5⟩ := ih5 o₁
            (a₁ ++ [Expr.assign ("=") (memberAccessT (stateMemberCat c name) name)
              (Expr.ident ("undefined"))]) h₁
          refine ⟨Expr.assign ("=") (memberAccessT (stateMemberCat c name) name)
              (Expr.ident ("undefined")) :: t', ?_, ?_, by simp, ?_, ?_⟩
          · rw [j1]
          · rw [j2]
            simp [List.append_assoc]
          · exact j4
          · exact j5
      · have hb1 : ctxBelow c (addLocal c name) :=
          ctxBelow_addLocal name (ctxBelow_refl hc)
        have htail1 : (addLocal c name).scopeStack.tail ≠ [] := by
          rw [ctxBelow_tail hb1]
          exact h
        have hU1 : noUndefinedBinding (addLocal c name) := noUndef_ctxBelow hb1 hU
        have hstep : ∀ (ds' : List (Pat × Option Expr)) (o : Out)
            (a : List Expr) (hh : Bool),
            visitDecls false c o a hh ((Pat.pId name, none) :: ds') =
              ((Pat.pId name, none) ::
                  (visitDecls false (addLocal c name) o a false ds').1,
                (visitDecls false (addLocal c name) o a false ds').2) := by
          intro ds' o a hh
          simp only [visitDecls, Bool.false_or, hsh, Bool.false_eq_true, if_false]
        obtain ⟨d, t, ih1, ih2, ih3, ih4, ih5⟩ :=
          ideVD rest (addLocal c name) o₀ a₀ false htail1 hU1
        refine ⟨false, t, ?_, ?_, fun hx => absurd hx Bool.false_ne_true,
          fun hx => absurd hx Bool.false_ne_true, ?_⟩
        · rw [hstep rest o₀ a₀ h₀]
          exact ih1
        · rw [hstep rest o₀ a₀ h₀]
          rw [ih2]
          simp
        · intro o₁ a₁ h₁
          rw [hstep rest o₀ a₀ h₀]
          rw [hstep ((visitDecls false (addLocal c name) o₀ a₀ false rest).1) o₁ a₁ h₁]
          obtain ⟨t', j1, j2, j3, j4, j5⟩ := ih5 o₁ a₁ false
          refine ⟨t', ?_, ?_, j3, ?_, ?_⟩
          · rw [j1]
          · rw [j2]
          · rw [j4]
            simp
          · exact j5
  | (Pat.pObj props r0, some e) :: rest, c, o₀, a₀, h₀, h, hU => by
      have hb1 : ctxBelow c (collectBindingNames c (Pat.pObj props r0)) :=
        ctxBelow_collect (Pat.pObj props r0) (ctxBelow_refl (ctx_ne_of_tail_ne h))
      have htail1 : (collectBindingNames c (Pat.pObj props r0)).scopeStack.tail ≠ [] := by
        rw [ctxBelow_tail hb1]
        exact h
      have hc1 := ctx_ne_of_tail_ne htail1
      have hU1 : noUndefinedBinding (collectBindingNames c (Pat.pObj props r0)) :=
        noUndef_ctxBelow hb1 hU
      have hstep : ∀ (e' : Expr) (ds' : List (Pat × Option Expr)) (o : Out)
          (a : List Expr) (hh : Bool),
          visitDecls false c o a hh ((Pat.pObj props r0, some e') :: ds') =
            ((Pat.pObj props r0,
                some (visitExpr (collectBindingNames c (Pat.pObj props r0)) o e').1) ::
                (visitDecls false (collectBindingNames c (Pat.pObj props r0))
                  (visitExpr (collectBindingNames c (Pat.pObj props r0)) o e').2.2
                  a false ds').1,
              (visitDecls false (collectBindingNames c (Pat.pObj props r0))
                (visitExpr (collectBindingNames c (Pat.pObj props r0)) o e').2.2
                a false ds').2) := by
        intro e' ds' o a hh
        simp only [visitDecls, Bool.false_eq_true, if_false]
        rw [preVE e' (collectBindingNames c (Pat.pObj props r0)) o hc1]
      obtain ⟨d, t, ih1, ih2, ih3, ih4, ih5⟩ :=
        ideVD rest (collectBindingNames c (Pat.pObj props r0))
          (visitExpr (collectBindingNames c (Pat.pObj props r0)) o₀ e).2.2
          a₀ false htail1 hU1
      refine ⟨false, t, ?_, ?_, fun hx => absurd hx Bool.false_ne_true,
          fun hx => absurd hx Bool.false_ne_true, ?_⟩
      · rw [hstep e rest o₀ a₀ h₀]
        exact ih1
      · rw [hstep e rest o₀ a₀ h₀]
        rw [ih2]
        simp
      · intro o₁ a₁ h₁
        rw [hstep e rest o₀ a₀ h₀]
        rw [hstep ((visitExpr (collectBindingNames c (Pat.pObj props r0)) o₀ e).1)
          ((visitDecls false (collectBindingNames c (Pat.pObj props r0))
            (visitExpr (collectBindingNames c (Pat.pObj props r0)) o₀ e).2.2
            a₀ false rest).1) o₁ a₁ h₁]
        rw [ideVE e (collectBindingNames c (Pat.pObj props r0)) o₀ o₁ hc1 hU1]
        obtain ⟨t', j1, j2, j3, j4, j5⟩ := ih5
          ((visitExpr (collectBindingNames c (Pat.pObj props r0)) o₁
            (visitExpr (collectBindingNames c (Pat.pObj props r0)) o₀ e).1).2.2) a₁ false
        refine ⟨t', ?_, ?_, j3, ?_, ?_⟩
        · rw [j1]
        · rw [j2]
        · rw [j4]
          simp
        · exact j5
  | (Pat.pObj props r0, none) :: rest, c, o₀, a₀, h₀, h, hU => by
      have hb1 : ctxBelow c (collectBindingNames c (Pat.pObj props r0)) :=
        ctxBelow_collect (Pat.pObj props r0) (ctxBelow_refl (ctx_ne_of_tail_ne h))
      have htail1 : (collectBindingNames c (Pat.pObj props r0)).scopeStack.tail ≠ [] := by
        rw [ctxBelow_tail hb1]
        exact h
      have hU1 : noUndefinedBinding (collectBindingNames c (Pat.pObj props r0)) :=
        noUndef_ctxBelow hb1 hU
      have hstep : ∀ (ds' : List (Pat × Option Expr)) (o : Out)
          (a : List Expr) (hh : Bool),
          visitDecls false c o a hh ((Pat.pObj props r0, none) :: ds') =
            ((Pat.pObj props r0, none) ::
                (visitDecls false (collectBindingNames c (Pat.pObj props r0))
                  o a false ds').1,
              (visitDecls false (collectBindingNames c (Pat.pObj props r0))
                o a false ds').2) := by
        intro ds' o a hh
        simp only [visitDecls, Bool.false_eq_true, if_false]
      obtain ⟨d, t, ih1, ih2, ih3, ih4, ih5⟩ :=
        ideVD rest (collectBindingNames c (Pat.pObj props r0)) o₀ a₀ false htail1 hU1
      refine ⟨false, t, ?_, ?_, fun hx => absurd hx Bool.false_ne_true,
          fun hx => absurd hx Bool.false_ne_true, ?_⟩
      · rw [hstep rest o₀ a₀ h₀]
        exact ih1
      · rw [hstep rest o₀ a₀ h₀]
        rw [ih2]
        simp
      · intro o₁ a₁ h₁
        rw [hstep rest o₀ a₀ h₀]
        rw [hstep ((visitDecls false (collectBindingNames c (Pat.pObj props r0))
          o₀ a₀ false rest).1) o₁ a₁ h₁]
        obtain ⟨t', j1, j2, j3, j4, j5⟩ := ih5 o₁ a₁ false
        refine ⟨t', ?_, ?_, j3, ?_, ?_⟩
        · rw [j1]
        · rw [j2]
        · rw [j4]
          simp
        · exact j5
  | (Pat.pArr elems r0, some e) :: rest, c, o₀, a₀, h₀, h, hU => by
      have hb1 : ctxBelow c (collectBindingNames c (Pat.pArr elems r0)) :=
        ctxBelow_collect (Pat.pArr elems r0) (ctxBelow_refl (ctx_ne_of_tail_ne h))
      have htail1 : (collectBindingNames c (Pat.pArr elems r0)).scopeStack.tail ≠ [] := by
        rw [ctxBelow_tail hb1]
        exact h
      have hc1 := ctx_ne_of_tail_ne htail1
      have hU1 : noUndefinedBinding (collectBindingNames c (Pat.pArr elems r0)) :=
        noUndef_ctxBelow hb1 hU
      have hstep : ∀ (e' : Expr) (ds' : List (Pat × Option Expr)) (o : Out)
          (a : List Expr) (hh : Bool),
          visitDecls false c o a hh ((Pat.pArr elems r0, some e') :: ds') =
            ((Pat.pArr elems r0,
                some (visitExpr (collectBindingNames c (Pat.pArr elems r0)) o e').1) ::
                (visitDecls false (collectBindingNames c (Pat.pArr elems r0))
                  (visitExpr (collectBindingNames c (Pat.pArr elems r0)) o e').2.2
                  a false ds').1,
              (visitDecls false (collectBindingNames c (Pat.pArr elems r0))
                (visitExpr (collectBindingNames c (Pat.pArr elems r0)) o e').2.2
                a false ds').2) := by
        intro e' ds' o a hh
        simp only [visitDecls, Bool.false_eq_true, if_false]
        rw [preVE e' (collectBindingNames c (Pat.pArr elems r0)) o hc1]
      obtain ⟨d, t, ih1, ih2, ih3, ih4, ih5⟩ :=
        ideVD rest (collectBindingNames c (Pat.pArr elems r0))
          (visitExpr (collectBindingNames c (Pat.pArr elems r0)) o₀ e).2.2
          a₀ false htail1 hU1
      refine ⟨false, t, ?_, ?_, fun hx => absurd hx Bool.false_ne_true,
          fun hx => absurd hx Bool.false_ne_true, ?_⟩
      · rw [hstep e rest o₀ a₀ h₀]
        exact ih1
      · rw [hstep e rest o₀ a₀ h₀]
        rw [ih2]
        simp
      · intro o₁ a₁ h₁
        rw [hstep e rest o₀ a₀ h₀]
        rw [hstep ((visitExpr (collectBindingNames c (Pat.pArr elems r0)) o₀ e).1)
          ((visitDecls false (collectBindingNames c (Pat.pArr elems r0))
            (visitExpr (collectBindingNames c (Pat.pArr elems r0)) o₀ e).2.2
            a₀ false rest).1) o₁ a₁ h₁]
        rw [ideVE e (collectBindingNames c (Pat.pArr elems r0)) o₀ o₁ hc1 hU1]
        obtain ⟨t', j1, j2, j3, j4, j5⟩ := ih5
          ((visitExpr (collectBindingNames c (Pat.pArr elems r0)) o₁
            (visitExpr (collectBindingNames c (Pat.pArr elems r0)) o₀ e).1).2.2) a₁ false
        refine ⟨t', ?_, ?_, j3, ?_, ?_⟩
        · rw [j1]
        · rw [j2]
        · rw [j4]
          simp
        · exact j5
  | (Pat.pArr elems r0, none) :: rest, c, o₀, a₀, h₀, h, hU => by
      have hb1 : ctxBelow c (collectBindingNames c (Pat.pArr elems r0)) :=
        ctxBelow_collect (Pat.pArr elems r0) (ctxBelow_refl (ctx_ne_of_tail_ne h))
      have htail1 : (collectBindingNames c (Pat.pArr elems r0)).scopeStack.tail ≠ [] := by
        rw [ctxBelow_tail hb1]
        exact h
      have hU1 : noUndefinedBinding (collectBindingNames c (Pat.pArr elems r0)) :=
        noUndef_ctxBelow hb1 hU
      have hstep : ∀ (ds' : List (Pat × Option Expr)) (o : Out)
          (a : List Expr) (hh : Bool),
          visitDecls false c o a hh ((Pat.pArr elems r0, none) :: ds') =
            ((Pat.pArr elems r0, none) ::
                (visitDecls false (collectBindingNames c (Pat.pArr elems r0))
                  o a false ds').1,
              (visitDecls false (collectBindingNames c (Pat.pArr elems r0))
                o a false ds').2) := by
        intro ds' o a hh
        simp only [visitDecls, Bool.false_eq_true, if_false]
      obtain ⟨d, t, ih1, ih2, ih3, ih4, ih5⟩ :=
        ideVD rest (collectBindingNames c (Pat.pArr elems r0)) o₀ a₀ false htail1 hU1
      refine ⟨false, t, ?_, ?_, fun hx => absurd hx Bool.false_ne_true,
          fun hx => absurd hx Bool.false_ne_true, ?_⟩
      · rw [hstep rest o₀ a₀ h₀]
        exact ih1
      · rw [hstep rest o₀ a₀ h₀]
        rw [ih2]
        simp
      · intro o₁ a₁ h₁
        rw [hstep rest o₀ a₀ h₀]
        rw [hstep ((visitDecls false (collectBindingNames c (Pat.pArr elems r0))
          o₀ a₀ false rest).1) o₁ a₁ h₁]
        obtain ⟨t', j1, j2, j3, j4, j5⟩ := ih5 o₁ a₁ false
        refine ⟨t', ?_, ?_, j3, ?_, ?_⟩
        · rw [j1]
        · rw [j2]
        · rw [j4]
          simp
        · exact j5

/-- Idempotence of the statement visit below the top level: both the
transformed statement and the resulting context are reproduced. -/
theorem ideVS : ∀ (s : Stmt) (c : Ctx) (o₀ o₁ : Out), c.scopeStack.tail ≠ [] →
    noUndefinedBinding c →
    (visitStmt c o₁ (visitStmt c o₀ s).1).1 = (visitStmt c o₀ s).1 ∧
    (visitStmt c o₁ (visitStmt c o₀ s).1).2.1 = (visitStmt c o₀ s).2.1
  | .exprStmt e, c, o₀, o₁, h, hU => by
      have hc := ctx_ne_of_tail_ne h
      simp only [visitStmt]
      exact ⟨by rw [ideVE e c o₀ o₁ hc hU],
        by rw [preVE e c o₀ hc, preVE ((visitExpr c o₀ e).1) c o₁ hc]⟩
  | .varDecl kind decls, c, o₀, o₁, h, hU => by
      have hc := ctx_ne_of_tail_ne h
      obtain ⟨d, t, ih1, ih2, ih3, ih4, ih5⟩ := ideVD decls c o₀ [] true h hU
      simp only [List.nil_append] at ih1
      cases hd : d with
      | false =>
          rw [hd] at ih2 ih5
          have hout : visitStmt c o₀ (.varDecl kind decls) =
              (.varDecl kind (visitDecls false c o₀ [] true decls).1,
                (visitDecls false c o₀ [] true decls).2.2.2.1,
                (visitDecls false c o₀ [] true decls).2.2.2.2) := by
            simp only [visitStmt, length_beq_one_false h, ih2, Bool.true_and,
              Bool.false_and, Bool.false_eq_true, if_false]
          obtain ⟨t', j1, j2, j3, j4, j5⟩ := ih5 o₁ [] true
          rw [hout]
          have hout2 : visitStmt c o₁
              (.varDecl kind (visitDecls false c o₀ [] true decls).1) =
              (.varDecl kind (visitDecls false c o₀ [] true decls).1,
                (visitDecls false c o₀ [] true decls).2.2.2.1,
                (visitDecls false c o₁ [] true
                  (visitDecls false c o₀ [] true decls).1).2.2.2.2) := by
            simp only [visitStmt, length_beq_one_false h, j4, Bool.true_and,
              Bool.false_and, Bool.false_eq_true, if_false, j1, j5]
          rw [hout2]
          exact ⟨rfl, rfl⟩
      | true =>
          rw [hd] at ih2 ih5
          have hctx := ih3 hd
          have hstab := ih4 hd
          cases ht : t with
          | nil =>
              rw [ht] at ih1
              have hout : visitStmt c o₀ (.varDecl kind decls) =
                  (.varDecl kind (visitDecls false c o₀ [] true decls).1,
                    (visitDecls false c o₀ [] true decls).2.2.2.1,
                    (visitDecls false c o₀ [] true decls).2.2.2.2) := by
                simp only [visitStmt, length_beq_one_false h, ih1, ih2, Bool.true_and,
                  List.isEmpty_nil, Bool.not_true, Bool.and_false, Bool.false_eq_true,
                  if_false]
              obtain ⟨t', j1, j2, j3, j4, j5⟩ := ih5 o₁ [] true
              have ht' : t' = [] := j3.mpr ht
              rw [ht'] at j2
              rw [hout]
              have hout2 : visitStmt c o₁
                  (.varDecl kind (visitDecls false c o₀ [] true decls).1) =
                  (.varDecl kind (visitDecls false c o₀ [] true decls).1,
                    (visitDecls false c o₀ [] true decls).2.2.2.1,
                    (visitDecls false c o₁ [] true
                      (visitDecls false c o₀ [] true decls).1).2.2.2.2) := by
                simp only [visitStmt, length_beq_one_false h, j2, j4, Bool.true_and,
                  List.isEmpty_nil, Bool.not_true, Bool.and_false, Bool.false_eq_true,
                  if_false, j1, j5, List.append_nil]
              rw [hout2]
              exact ⟨rfl, rfl⟩
          | cons x xs =>
              rw [ht] at ih1 hstab
              have hX : ∀ (X : Expr), exprStable c X →
                  (visitStmt c o₁ (.exprStmt X)).1 = Stmt.exprStmt X ∧
                  (visitStmt c o₁ (.exprStmt X)).2.1 = c := by
                intro X hXs
                simp only [visitStmt]
                exact ⟨by rw [(hXs o₁).1], (hXs o₁).2⟩
              cases hxs : xs with
              | nil =>
                  have hout : visitStmt c o₀ (.varDecl kind decls) =
                      (.exprStmt x,
                        (visitDecls false c o₀ [] true decls).2.2.2.1,
                        (visitDecls false c o₀ [] true decls).2.2.2.2) := by
                    simp only [visitStmt, length_beq_one_false h, ih1, ih2, hxs,
                      Bool.true_and, List.isEmpty_cons, Bool.not_false, Bool.and_true,
                      if_true]
                  rw [hout]
                  have hx := hX x (hstab x (by rw [hxs]; exact List.mem_cons_self x []))
                  refine ⟨hx.1, ?_⟩
                  rw [hx.2, hctx]
              | cons y ys =>
                  have hout : visitStmt c o₀ (.varDecl kind decls) =
                      (.exprStmt (.seqExpr (x :: xs)),
                        (visitDecls false c o₀ [] true decls).2.2.2.1,
                        (visitDecls false c o₀ [] true decls).2.2.2.2) := by
                    simp only [visitStmt, length_beq_one_false h, ih1, ih2, hxs,
                      Bool.true_and, List.isEmpty_cons, Bool.not_false, Bool.and_true,
                      if_true]
                  rw [hout]
                  have hseq : exprStable c (.seqExpr (x :: xs)) := by
                    intro o
                    have hl := exprListStable_visit hstab o
                    simp only [visitExpr]
                    exact ⟨by rw [hl.1], hl.2⟩
                  have hx := hX (.seqExpr (x :: xs)) hseq
                  refine ⟨hx.1, ?_⟩
                  rw [hx.2, hctx]
  | .funcDecl name ps body, c, o₀, o₁, h, hU => by
      have hbc : ctxBelow (pushScope { c with disallowReactiveAccess := false })
          (ps.foldl collectBindingNames
            (pushScope { c with disallowReactiveAccess := false })) :=
        ctxBelow_foldl_collect ps (ctxBelow_refl (by simp [pushScope]))
      have htail : (ps.foldl collectBindingNames
          (pushScope { c with disallowReactiveAccess := false })).scopeStack.tail ≠ [] := by
        rw [ctxBelow_tail hbc]
        exact ctx_ne_of_tail_ne h
      have hU1 : noUndefinedBinding (ps.foldl collectBindingNames
          (pushScope { c with disallowReactiveAccess := false })) :=
        noUndef_ctxBelow hbc hU
      have hids := ideVSS body _ o₀ o₁ htail hU1
      simp only [visitStmt, length_beq_one_false h, Bool.false_and,
        Bool.false_eq_true, if_false]
      exact ⟨by rw [hids.1], by rw [hids.2]⟩
  | .block body, c, o₀, o₁, h, hU => by
      have hskip := ideVSkip body (pushScope c) o₀ o₁ (ctx_ne_of_tail_ne h) hU
      simp only [visitStmt]
      exact ⟨by rw [hskip.1], by rw [hskip.2]⟩
  | .empty, c, o₀, o₁, _h, _hU => ⟨rfl, rfl⟩
  | .tsDecl, c, o₀, o₁, _h, _hU => ⟨rfl, rfl⟩

theorem ideVSS : ∀ (ss : List Stmt) (c : Ctx) (o₀ o₁ : Out),
    c.scopeStack.tail ≠ [] → noUndefinedBinding c →
    (visitStmts c o₁ (visitStmts c o₀ ss).1).1 = (visitStmts c o₀ ss).1 ∧
    (visitStmts c o₁ (visitStmts c o₀ ss).1).2.1 = (visitStmts c o₀ ss).2.1
  | [], _, _, _, _h, _hU => ⟨rfl, rfl⟩
  | s :: rest, c, o₀, o₁, h, hU => by
      have hs := ideVS s c o₀ o₁ h hU
      have hbel := preVS s c o₀ h
      have htail1 : ((visitStmt c o₀ s).2.1).scopeStack.tail ≠ [] := by
        rw [ctxBelow_tail hbel]
        exact h
      have hU1 := noUndef_ctxBelow hbel hU
      have hrest := ideVSS rest ((visitStmt c o₀ s).2.1) (visitStmt c o₀ s).2.2
        ((visitStmt c o₁ (visitStmt c o₀ s).1).2.2) htail1 hU1
      simp only [visitStmts]
      rw [hs.1, hs.2]
      exact ⟨by rw [hrest.1], by rw [hrest.2]⟩

theorem ideVSkip : ∀ (ss : List Stmt) (c : Ctx) (o₀ o₁ : Out),
    c.scopeStack.tail ≠ [] → noUndefinedBinding c →
    (visitStmtsSkipTs c o₁ (visitStmtsSkipTs c o₀ ss).1).1 =
      (visitStmtsSkipTs c o₀ ss).1 ∧
    (visitStmtsSkipTs c o₁ (visitStmtsSkipTs c o₀ ss).1).2.1 =
      (visitStmtsSkipTs c o₀ ss).2.1
  | [], _, _, _, _h, _hU => ⟨rfl, rfl⟩
  | s :: rest, c, o₀, o₁, h, hU => by
      by_cases hts : isTsNode s = true
      · simp only [visitStmtsSkipTs, hts, if_true]
        exact ideVSkip rest c o₀ o₁ h hU
      · have hts' : isTsNode s = false := by
          cases hb : isTsNode s
          · rfl
          · exact absurd hb hts
        have hs := ideVS s c o₀ o₁ h hU
        have hbel := preVS s c o₀ h
        have htail1 : ((visitStmt c o₀ s).2.1).scopeStack.tail ≠ [] := by
          rw [ctxBelow_tail hbel]
          exact h
        have hU1 := noUndef_ctxBelow hbel hU
        have hrest := ideVSkip rest ((visitStmt c o₀ s).2.1) (visitStmt c o₀ s).2.2
          ((visitStmt c o₁ (visitStmt c o₀ s).1).2.2) htail1 hU1
        simp only [visitStmtsSkipTs, hts', Bool.false_eq_true, if_false]
        simp only [visitStmtsSkipTs, visitStmt_not_ts s c o₀ hts',
          Bool.false_eq_true, if_false]
        rw [hs.1, hs.2]
        exact ⟨by rw [hrest.1], by rw [hrest.2]⟩
end

/-- C1: for every contents of the four binding sets, the scope stack and the
module-binding set, each of the four protected names `scope`, `state`,
`props`, `locals` classifies as `GlobalRef`; and with
`state_bindings = {"state"}` the bare expression `state` is rewritten to
`scope.state`, which is not the double-qualified `scope.state.state`. -/
theorem c1_protected_roots :
    (∀ c : Ctx, classifyIdentifier c ("scope") = .GlobalRef ("scope")) ∧
    (∀ c : Ctx, classifyIdentifier c ("state") = .GlobalRef ("state")) ∧
    (∀ c : Ctx, classifyIdentifier c ("props") = .GlobalRef ("props")) ∧
    (∀ c : Ctx, classifyIdentifier c ("locals") = .GlobalRef ("locals")) ∧
    (visitExpr (withCategories ["state"] [] [] []) emptyOut (Expr.ident ("state"))).1 =
      Expr.staticMember (Expr.ident ("scope")) ("state") ∧
    Expr.staticMember (Expr.ident ("scope")) ("state") ≠ memberAccessE ("state") ("state") :=
  ⟨fun _ => rfl, fun _ => rfl, fun _ => rfl, fun _ => rfl, rfl, by simp [memberAccessE]⟩

/-- C4: rewriting `count = 5` with `count` in `state_bindings`,
`is_event_handler = false`, `disallow_reactive_access = false` yields exactly
one error, a `Z-ERR-REACTIVITY-BOUNDARY` message; with
`is_event_handler = true` the error list is empty and the target is still
rewritten to `scope.state.count`. -/
theorem c4_guard_enforcement :
    (visitProgram (ctxCount false) emptyOut progCountAssign).2.2.errors =
      [stateWriteBoundaryErr ("count")] ∧
    strContains (stateWriteBoundaryErr ("count")) ("Z-ERR-REACTIVITY-BOUNDARY") = true ∧
    (visitProgram (ctxCount true) emptyOut progCountAssign).2.2.errors = [] ∧
    (visitProgram (ctxCount true) emptyOut progCountAssign).1 =
      [Stmt.exprStmt (Expr.assign ("=") (memberAccessT ("state") ("count")) (Expr.num 5))] :=
  ⟨rfl, by decide, rfl, rfl⟩

/-- C3 (counterexample): with `prop_bindings = {title}`,
`is_event_handler = true` and `disallow_reactive_access = false`, the prop
write target `title` is rewritten to `scope.props.title` but NO error is
raised — contradicting the claim that a prop write raises
`Z-ERR-REACTIVITY-BOUNDARY` unconditionally in every context including event
handlers. -/
theorem c3_prop_write_counterexample :
    (visitTarget ctxPropHandler emptyOut (Target.tId ("title"))).2.2.errors = [] ∧
    (visitTarget ctxPropHandler emptyOut (Target.tId ("title"))).1 =
      memberAccessT ("props") ("title") :=
  ⟨rfl, rfl⟩

/-- C3 (amended): for every name classifying as a prop, a write target is
rewritten to `scope.props.<name>` and a `Z-ERR-RUN-REACTIVE` error is raised
when `disallow_reactive_access` is true, a `Z-ERR-REACTIVITY-BOUNDARY` error
when additionally `is_event_handler` is false, and no error in event-handler
context. -/
theorem c3_prop_write_amended (c : Ctx) (o : Out) (n : String)
    (h : classifyIdentifier c n = .PropRef n) :
    visitTarget c o (Target.tId n) =
      (memberAccessT ("props") n, c,
        addPropDep
          (if c.disallowReactiveAccess then pushError o (propWriteRunErr n)
           else if !c.isEventHandler then pushError o (propWriteBoundaryErr n)
           else o) n) := by
  simp only [visitTarget, h]

/-- Witness for the amended C3 statement at a concrete input: `title` in
`prop_bindings`, outside event handlers, raises the boundary error and is
rewritten. -/
theorem c3_prop_write_amended_witness :
    visitTarget (withCategories [] ["title"] [] []) emptyOut (Target.tId ("title")) =
      (memberAccessT ("props") ("title"), withCategories [] ["title"] [] [],
        addPropDep (pushError emptyOut (propWriteBoundaryErr ("title"))) ("title")) := by
  rw [c3_prop_write_amended (withCategories [] ["title"] [] []) emptyOut ("title") (by decide)]
  rfl

/-- C6: a name present in both `local_bindings` and `state_bindings` that is
neither protected nor on the scope stack always classifies as
`ExternalLocalRef` (local treatment), never `StateRef`. -/
theorem c6_local_outranks_state (c : Ctx) (n : String)
    (hprot : (n == "scope" || n == "state" || n == "props" || n == "locals") = false)
    (hstack : isLocalName c n = false)
    (hlocal : c.localBindings.contains n = true)
    (_hstate : c.stateBindings.contains n = true) :
    classifyIdentifier c n = .ExternalLocalRef n := by
  simp only [classifyIdentifier, hprot, hstack, hlocal, Bool.false_eq_true, if_false, if_true]

/-- Witness for C6 at a concrete input: `helper` in both `local_bindings`
and `state_bindings` classifies as `ExternalLocalRef`. -/
theorem c6_local_outranks_state_witness :
    classifyIdentifier (withCategories ["helper"] [] ["helper"] []) ("helper") =
      .ExternalLocalRef ("helper") :=
  c6_local_outranks_state (withCategories ["helper"] [] ["helper"] []) ("helper")
    (by decide) (by decide) (by decide) (by decide)

/-- C7: a name matching none of the earlier classification rules (not
protected, not on the scope stack, in none of the binding sets nor the
globals whitelist) classifies as `PropRef` exactly when
`allow_prop_fallback` is set and the scope stack has exactly one frame, and
as `UnresolvedRef` in every other case. -/
theorem c7_prop_fallback_guard (c : Ctx) (n : String)
    (hprot : (n == "scope" || n == "state" || n == "props" || n == "locals") = false)
    (hstack : isLocalName c n = false)
    (hlocal : c.localBindings.contains n = false)
    (hext : c.externalLocals.contains n = false)
    (hstate : c.stateBindings.contains n = false)
    (hprop : c.propBindings.contains n = false)
    (hmod : c.moduleBindings.contains n = false)
    (hglob : isGlobalName n = false) :
    classifyIdentifier c n =
      (if c.allowPropFallback && c.scopeStack.length == 1 then .PropRef n
       else .UnresolvedRef n) ∧
    (classifyIdentifier c n = .PropRef n ↔
      (c.allowPropFallback = true ∧ c.scopeStack.length = 1)) := by
  have hmain : classifyIdentifier c n =
      (if c.allowPropFallback && c.scopeStack.length == 1 then IdentifierRef.PropRef n
       else IdentifierRef.UnresolvedRef n) := by
    simp only [classifyIdentifier, hprot, hstack, hlocal, hext, hstate, hprop, hmod, hglob,
      Bool.false_eq_true, if_false]
  refine ⟨hmain, ?_⟩
  rw [hmain]
  cases hb : (c.allowPropFallback && c.scopeStack.length == 1) with
  | true =>
      have h12 := (Bool.and_eq_true _ _).mp hb
      have hlen : c.scopeStack.length = 1 := by simpa using h12.2
      simp [hb, h12.1, hlen]
  | false =>
      simp only [hb, Bool.false_eq_true, if_false]
      constructor
      · intro h
        exact IdentifierRef.noConfusion h
      · rintro ⟨h1, h2⟩
        rw [h1] at hb
        simp [h2] at hb

/-- Witness for C7 at concrete inputs: the unknown name `foo` falls back to
`PropRef` when `allow_prop_fallback` is set at one frame, and is unresolved
when the fallback is off. -/
theorem c7_prop_fallback_guard_witness :
    classifyIdentifier { withCategories [] [] [] [] with allowPropFallback := true } ("foo") =
      .PropRef ("foo") ∧
    classifyIdentifier (withCategories [] [] [] []) ("foo") = .UnresolvedRef ("foo") := by
  constructor
  · have h := c7_prop_fallback_guard
      { withCategories [] [] [] [] with allowPropFallback := true } ("foo")
      (by decide) (by decide) (by decide) (by decide) (by decide) (by decide) (by decide)
      (by decide)
    rw [h.1]
    decide
  · have h := c7_prop_fallback_guard (withCategories [] [] [] []) ("foo")
      (by decide) (by decide) (by decide) (by decide) (by decide) (by decide) (by decide)
      (by decide)
    rw [h.1]
    decide

/-- C8: at scope depth 1, `const \x7b a, b: renamed \x7d = source;` (with both
names fresh and `source` a module binding) is rewritten to the sequence
`scope.locals.a = source.a, scope.locals.renamed = source.b` with no errors,
and both names are registered into `local_bindings`; registration happens
only after the initializer is visited, so `const \x7b a \x7d = a;` classifies the
initializer `a` as unresolved (left bare with a `Z-ERR-SCOPE-002` error)
instead of resolving it to the declaration being introduced. -/
theorem c8_destructuring_expansion :
    visitStmt ctxC8 emptyOut stmtDestructure =
      (Stmt.exprStmt (Expr.seqExpr
        [Expr.assign ("=") (memberAccessT ("locals") ("a"))
          (Expr.staticMember (Expr.ident ("source")) ("a")),
         Expr.assign ("=") (memberAccessT ("locals") ("renamed"))
          (Expr.staticMember (Expr.ident ("source")) ("b"))]),
       { ctxC8 with localBindings := ["a", "renamed"] }, emptyOut) ∧
    (visitStmt ctxC8 emptyOut stmtDestructure).2.1.localBindings.contains ("a") = true ∧
    (visitStmt ctxC8 emptyOut stmtDestructure).2.1.localBindings.contains ("renamed") = true ∧
    (visitStmt ctxC8 emptyOut stmtSelfRef).1 =
      Stmt.exprStmt (Expr.assign ("=") (memberAccessT ("locals") ("a"))
        (Expr.staticMember (Expr.ident ("a")) ("a"))) ∧
    (visitStmt ctxC8 emptyOut stmtSelfRef).2.2.errors = [unresolvedErr ("a")] :=
  ⟨rfl, by decide, by decide, rfl, rfl⟩

/-- C10: when the expression's code fails to parse,
`compute_expression_intent` returns the original code string with empty
dependency, mutation and error lists (only the uses-loop flag is computed,
from the raw text). -/
theorem c10_parse_failure_passthrough (inp : ExpressionInput)
    (stateB propB localB extL loopVars : List String) (h : Bool) :
    computeExpressionIntent none inp stateB propB localB extL loopVars h =
      .ok ⟨inp.code, [],
        inp.loopContext.isSome || loopVars.any (fun v => strContains inp.code v), [], []⟩ :=
  rfl


/-- C9: running `compute_expression_intent` on `count += 1` with `count` in
`state_bindings` yields transformed code `scope.state.count += 1`, a
dependency list containing `count` and a mutated list containing `count`
(together with the boundary diagnostic, as the expression is not an event
handler). -/
theorem c9_mutation_tracking :
    computeExpressionIntent (some progCountCompound) ⟨"e1", "count += 1", none⟩
        ["count"] [] [] [] [] false =
      Except.ok ⟨"scope.state.count += 1", ["count"], false,
        [stateWriteBoundaryErr ("count")], ["count"]⟩ ∧
    strContains ("scope.state.count += 1") ("scope.state.count += 1") = true ∧
    (["count"] : List String).contains ("count") = true :=
  ⟨rfl, by decide, by decide⟩

/-- C2 (code bug): the per-identifier failures are indeed non-fatal (the
unresolved `render` merely accumulates an error), and the environment
validator does raise the `ZEN_ENV_TDZ_VIOLATION` abort on a misplaced
`zenRoute()` call — but it is NOT the only reachable abort: the leftover
debug check in `compute_expression_intent` panics with
`[DEBUG PANIC] Found target code!` on any expression whose transformed text
contains `docsOrder` or `render`, e.g. `zenEffect(render)`. -/
theorem c2_debug_panic_reachable :
    computeExpressionIntent (some progZenEffectRender) ⟨"expr_1", "zenEffect(render)", none⟩
        [] [] [] [] [] false = Except.error debugPanicMsg ∧
    strContains debugPanicMsg ("ZEN_ENV_TDZ_VIOLATION") = false ∧
    processEnvStatements [Stmt.exprStmt (Expr.call (Expr.ident ("zenRoute")) [])] =
      Except.error tdzPanicMsg :=
  ⟨rfl, by decide, rfl⟩


/-- C5: the qualification rewrite is idempotent. (i) In general: for any
renamer state with a non-empty scope stack and no binding set claiming the
name `undefined`, re-running the expression visit on its own output leaves
the output unchanged — already-qualified code is never double-qualified.
(ii) In particular, the fully qualified `scope.state.x` is a fixpoint of the
rewrite in every state: `scope` always classifies as `GlobalRef` and member
property names are never reclassified as bare targets. -/
theorem c5_rewrite_idempotent :
    (∀ (c : Ctx) (o₀ o₁ : Out) (e : Expr), c.scopeStack ≠ [] →
        noUndefinedBinding c →
        (visitExpr c o₁ (visitExpr c o₀ e).1).1 = (visitExpr c o₀ e).1) ∧
    (∀ (c : Ctx) (o : Out),
        (visitExpr c o (memberAccessE ("state") ("x"))).1 =
          memberAccessE ("state") ("x")) :=
  ⟨fun c o₀ o₁ e h hU => ideVE e c o₀ o₁ h hU,
   fun c o => by rw [memberEStable]⟩

theorem c5_rewrite_idempotent_witness :
    ((withCategories [("count")] [] [] []).scopeStack ≠ [] ∧
      noUndefinedBinding (withCategories [("count")] [] [] [])) ∧
    (visitExpr (withCategories [("count")] [] [] []) emptyOut
        (visitExpr (withCategories [("count")] [] [] []) emptyOut
          (Expr.ident ("count"))).1).1 =
      (visitExpr (withCategories [("count")] [] [] []) emptyOut
        (Expr.ident ("count"))).1 ∧
    (visitExpr (withCategories [("count")] [] [] []) emptyOut
        (memberAccessE ("state") ("x"))).1 = memberAccessE ("state") ("x") :=
  ⟨⟨by decide, ⟨rfl, rfl, rfl, rfl⟩⟩,
   c5_rewrite_idempotent.1 (withCategories [("count")] [] [] []) emptyOut emptyOut
     (Expr.ident ("count")) (by decide) ⟨rfl, rfl, rfl, rfl⟩,
   c5_rewrite_idempotent.2 (withCategories [("count")] [] [] []) emptyOut⟩

end Zenith
